import Mathlib

/-!
Verification of the celerity runtime's command-graph generation and execution
against its specification.  The definitions below are shallow embeddings of the
C++ sources:

* `src/src/runtime.cc`      — `split_equal`, `assign_chunks_to_nodes`,
                              `process_compute_task`, `runtime::TEST_do_work`
* `src/include/command_graph.h` — `command_graph` (create / add_dependency /
                              remove_dependency, execution fronts)
* `src/unnamed/part_000`    — `buffer_transfer_manager` (await_push,
                              update_incoming_transfers)

Machine sizes (`size_t`) are modelled as `Nat`; the quantities involved
(chunk counts, ranges, node ids, command ids) never wrap in the source, and no
arithmetic below depends on a modulus.
-/

namespace Celerity

/-! ## subrange and split_equal (runtime.cc lines 179-209)

`subrange<D>` holds `(start, range, global_size)` per dimension (`subrange.h`
is outside the given sources; the field layout follows spec §3).  Components
are `Nat` (`cl::sycl::range` entries are `size_t`). -/

/-- `subrange<1>`. -/
structure Subrange1 where
  start : Nat
  range : Nat
  global_size : Nat
deriving DecidableEq, Repr

/-- `subrange<2>` with per-dimension components spelled out. -/
structure Subrange2 where
  start0 : Nat
  start1 : Nat
  range0 : Nat
  range1 : Nat
  global_size0 : Nat
  global_size1 : Nat
deriving DecidableEq, Repr

/-- `subrange<3>`. -/
structure Subrange3 where
  start0 : Nat
  start1 : Nat
  start2 : Nat
  range0 : Nat
  range1 : Nat
  range2 : Nat
  global_size0 : Nat
  global_size1 : Nat
  global_size2 : Nat
deriving DecidableEq, Repr

/-- The loop of `split_equal(const subrange<1>&, size_t)` (runtime.cc 186-191):
`remaining` counts the iterations still to run (`remaining = num_chunks - i`),
`start` is the running `chunk.start`.  Each iteration pushes a chunk of range
`q = sr.range / num_chunks` starting at `start`; the final iteration
(`i == num_chunks - 1`, i.e. `remaining = 1`) additionally adds the remainder
`rem = sr.range % num_chunks` to the chunk just pushed.  The `start` increment
uses the unmodified `chunk.range = q`. -/
def splitEqualGo (gs q rem : Nat) : Nat → Nat → List Subrange1
  | 0, _ => []
  | Nat.succ n, start =>
    { start := start, range := if n = 0 then q + rem else q, global_size := gs }
      :: splitEqualGo gs q rem n (start + q)

/-- `split_equal(const subrange<1>& sr, size_t num_chunks)` (runtime.cc 179-193).
`chunk.start` is initialised to 0 — `sr.start` is never read.
The `assert(num_chunks > 0)` is a precondition carried by the theorems. -/
def split_equal1 (sr : Subrange1) (num_chunks : Nat) : List Subrange1 :=
  splitEqualGo sr.global_size (sr.range / num_chunks) (sr.range % num_chunks) num_chunks 0

/-- `split_equal(const subrange<2>& sr, size_t num_chunks)` (runtime.cc 197-205):
split dimension 0 as a 1-D subrange, then pair every row with the full
dimension-1 extent of `sr`. -/
def split_equal2 (sr : Subrange2) (num_chunks : Nat) : List Subrange2 :=
  (split_equal1 { start := sr.start0, range := sr.range0, global_size := sr.global_size0 }
      num_chunks).map
    fun row =>
      { start0 := row.start, start1 := sr.start1, range0 := row.range, range1 := sr.range1,
        global_size0 := sr.global_size0, global_size1 := sr.global_size1 }

/-- `split_equal(const subrange<3>&, size_t)` (runtime.cc 207-209):
`throw std::runtime_error("3D split_equal NYI")`, unconditionally. -/
def split_equal3 (_sr : Subrange3) (_num_chunks : Nat) : Except String (List Subrange3) :=
  Except.error "3D split_equal NYI"

/-- A 1-D chunk covers index `x`. -/
def covers1 (c : Subrange1) (x : Nat) : Prop :=
  c.start ≤ x ∧ x < c.start + c.range

instance (c : Subrange1) (x : Nat) : Decidable (covers1 c x) := by
  unfold covers1; infer_instance

/-- A 2-D chunk covers index `(x, y)`. -/
def covers2 (c : Subrange2) (x y : Nat) : Prop :=
  c.start0 ≤ x ∧ x < c.start0 + c.range0 ∧ c.start1 ≤ y ∧ y < c.start1 + c.range1

instance (c : Subrange2) (x y : Nat) : Decidable (covers2 c x y) := by
  unfold covers2; infer_instance

theorem splitEqualGo_length (gs q rem : Nat) :
    ∀ n start, (splitEqualGo gs q rem n start).length = n := by
  intro n
  induction n with
  | zero => intro start; rfl
  | succ m ih =>
    intro start
    simp [splitEqualGo, ih]

theorem splitEqualGo_get (gs q rem : Nat) :
    ∀ n start i (h : i < (splitEqualGo gs q rem n start).length),
      (splitEqualGo gs q rem n start).get ⟨i, h⟩ =
        { start := start + i * q,
          range := if i = n - 1 then q + rem else q,
          global_size := gs } := by
  intro n
  induction n with
  | zero =>
    intro start i h
    simp [splitEqualGo_length] at h
  | succ m ih =>
    intro start i h
    match i with
    | 0 =>
      simp only [splitEqualGo, List.get]
      have h01 : (0 : Nat) = m + 1 - 1 ↔ m = 0 := by omega
      by_cases hm : m = 0
      · simp [hm]
      · have hm' : (0 : Nat) ≠ m := fun hh => hm hh.symm
        simp [hm, hm']
    | Nat.succ j =>
      have hj : j < (splitEqualGo gs q rem m (start + q)).length := by
        simp [splitEqualGo_length] at h ⊢
        omega
      have hrec := ih (start + q) j hj
      simp only [splitEqualGo, List.get] at hrec ⊢
      rw [hrec]
      have hm : m ≠ 0 := by
        simp [splitEqualGo_length] at h
        omega
      have hstart : start + q + j * q = start + (j + 1) * q := by ring
      have hif : (if j = m - 1 then q + rem else q) = (if j + 1 = m then q + rem else q) :=
        if_congr (by omega) rfl rfl
      rw [hstart, hif]
      simp

theorem split_equal1_length (sr : Subrange1) (nc : Nat) :
    (split_equal1 sr nc).length = nc := by
  simp [split_equal1, splitEqualGo_length]

theorem split_equal1_get (sr : Subrange1) (nc : Nat) (i : Nat)
    (h : i < (split_equal1 sr nc).length) :
    (split_equal1 sr nc).get ⟨i, h⟩ =
      { start := i * (sr.range / nc),
        range := if i = nc - 1 then sr.range / nc + sr.range % nc else sr.range / nc,
        global_size := sr.global_size } := by
  unfold split_equal1
  rw [splitEqualGo_get]
  simp

/-- The chunks returned by the 1-D `split_equal` tile `[0, sr.range)`:
an index is covered by some chunk exactly when it lies below `sr.range`. -/
theorem split_equal1_covers_iff (sr : Subrange1) (nc : Nat) (hnc : 0 < nc) (x : Nat) :
    (∃ i, ∃ h : i < (split_equal1 sr nc).length,
        covers1 ((split_equal1 sr nc).get ⟨i, h⟩) x) ↔ x < sr.range := by
  have hdm : nc * (sr.range / nc) + sr.range % nc = sr.range := Nat.div_add_mod sr.range nc
  have hcov : ∀ i (h : i < (split_equal1 sr nc).length),
      covers1 ((split_equal1 sr nc).get ⟨i, h⟩) x ↔
        (i * (sr.range / nc) ≤ x ∧
          x < i * (sr.range / nc) +
            (if i = nc - 1 then sr.range / nc + sr.range % nc else sr.range / nc)) := by
    intro i h
    rw [split_equal1_get]
    exact Iff.rfl
  have hsucc : ∀ a : Nat, a * (sr.range / nc) + sr.range / nc = (a + 1) * (sr.range / nc) :=
    fun a => (Nat.succ_mul a (sr.range / nc)).symm
  have hlastq : (nc - 1) * (sr.range / nc) + (sr.range / nc + sr.range % nc) = sr.range := by
    have h2 : (nc - 1) * (sr.range / nc) + sr.range / nc = nc * (sr.range / nc) := by
      have h3 : nc - 1 + 1 = nc := Nat.succ_pred_eq_of_pos hnc
      rw [hsucc, h3]
    omega
  constructor
  · rintro ⟨i, h, hc⟩
    rw [hcov i h] at hc
    have hi : i < nc := by rw [split_equal1_length] at h; exact h
    by_cases hlast : i = nc - 1
    · rw [if_pos hlast] at hc
      rw [hlast] at hc
      omega
    · rw [if_neg hlast] at hc
      have h2 : (i + 1) * (sr.range / nc) ≤ nc * (sr.range / nc) :=
        Nat.mul_le_mul_right _ (by omega)
      have h3 := hsucc i
      omega
  · intro hx
    by_cases hq0 : sr.range / nc = 0
    · have hlen : nc - 1 < (split_equal1 sr nc).length := by rw [split_equal1_length]; omega
      refine ⟨nc - 1, hlen, ?_⟩
      rw [hcov _ hlen, if_pos rfl]
      rw [hq0] at hlastq ⊢
      omega
    · have hqpos : 0 < sr.range / nc := Nat.pos_of_ne_zero hq0
      by_cases hbig : nc - 1 ≤ x / (sr.range / nc)
      · have hlen : nc - 1 < (split_equal1 sr nc).length := by rw [split_equal1_length]; omega
        refine ⟨nc - 1, hlen, ?_⟩
        rw [hcov _ hlen, if_pos rfl]
        have h1 : (nc - 1) * (sr.range / nc) ≤ (x / (sr.range / nc)) * (sr.range / nc) :=
          Nat.mul_le_mul_right _ hbig
        have h2 : (x / (sr.range / nc)) * (sr.range / nc) ≤ x := Nat.div_mul_le_self x _
        omega
      · push_neg at hbig
        have hlen : x / (sr.range / nc) < (split_equal1 sr nc).length := by
          rw [split_equal1_length]; omega
        refine ⟨x / (sr.range / nc), hlen, ?_⟩
        have hne : x / (sr.range / nc) ≠ nc - 1 := by omega
        rw [hcov _ hlen, if_neg hne]
        have h1 : (x / (sr.range / nc)) * (sr.range / nc) ≤ x := Nat.div_mul_le_self x _
        have h2 : x < (x / (sr.range / nc) + 1) * (sr.range / nc) :=
          (Nat.div_lt_iff_lt_mul hqpos).mp (Nat.lt_succ_self _)
        have h3 := hsucc (x / (sr.range / nc))
        omega

/-- Chunks of the 1-D `split_equal` are pairwise disjoint: no index is covered
by two different chunks. -/
theorem split_equal1_disjoint (sr : Subrange1) (nc : Nat) (i j : Nat)
    (hi : i < (split_equal1 sr nc).length) (hj : j < (split_equal1 sr nc).length) (x : Nat)
    (hci : covers1 ((split_equal1 sr nc).get ⟨i, hi⟩) x)
    (hcj : covers1 ((split_equal1 sr nc).get ⟨j, hj⟩) x) : i = j := by
  have hsucc : ∀ a : Nat, a * (sr.range / nc) + sr.range / nc = (a + 1) * (sr.range / nc) :=
    fun a => (Nat.succ_mul a (sr.range / nc)).symm
  have hinc : i < nc := by have h := hi; rwa [split_equal1_length] at h
  have hjnc : j < nc := by have h := hj; rwa [split_equal1_length] at h
  rw [split_equal1_get] at hci hcj
  by_contra hne
  -- The chunk of the smaller index ends before the chunk of the larger one starts.
  have key : ∀ a b : Nat, a < b → b < nc →
      (a * (sr.range / nc) ≤ x ∧
        x < a * (sr.range / nc) +
          (if a = nc - 1 then sr.range / nc + sr.range % nc else sr.range / nc)) →
      (b * (sr.range / nc) ≤ x ∧
        x < b * (sr.range / nc) +
          (if b = nc - 1 then sr.range / nc + sr.range % nc else sr.range / nc)) →
      False := by
    intro a b hab hbnc hca hcb
    have hcb1 := hcb.1
    have hanl : a ≠ nc - 1 := by omega
    rw [if_neg hanl] at hca
    rcases hca with ⟨hca1, hca2⟩
    have h2 : (a + 1) * (sr.range / nc) ≤ b * (sr.range / nc) :=
      Nat.mul_le_mul_right _ (by omega)
    have h3 := hsucc a
    clear hcb
    omega
  rcases Nat.lt_or_ge i j with hij | hij
  · exact key i j hij hjnc hci hcj
  · exact key j i (by omega) hinc hcj hci

/-! ## The compute-task split (process_compute_task, runtime.cc 269-285, 407-412)

`build_command_graph` computes `num_worker_nodes = max(num_nodes - 1, 1)`;
`process_compute_task` sets `num_chunks = num_worker_nodes` and splits the
subrange `{start = 0 (default), range = global_size, global_size}`. -/

/-- `num_worker_nodes = std::max(num_nodes - 1, (size_t)1)` (runtime.cc 411).
`num_nodes - 1` is the truncating `Nat` subtraction, as for `size_t` with
`num_nodes ≥ 1`. -/
def num_worker_nodes (num_nodes : Nat) : Nat := max (num_nodes - 1) 1

/-- The subrange a 1-D compute task is split over (runtime.cc 282-284): the
task's global size with `range = global_size` and default `start = 0`. -/
def computeTaskSubrange1 (gs : Nat) : Subrange1 :=
  { start := 0, range := gs, global_size := gs }

/-- The 2-D analogue of `computeTaskSubrange1`. -/
def computeTaskSubrange2 (gs0 gs1 : Nat) : Subrange2 :=
  { start0 := 0, start1 := 0, range0 := gs0, range1 := gs1,
    global_size0 := gs0, global_size1 := gs1 }

/-- The chunk list of a 1-D compute task (runtime.cc 279-285). -/
def computeTaskChunks1 (gs num_nodes : Nat) : List Subrange1 :=
  split_equal1 (computeTaskSubrange1 gs) (num_worker_nodes num_nodes)

/-- The chunk list of a 2-D compute task (runtime.cc 279-285). -/
def computeTaskChunks2 (gs0 gs1 num_nodes : Nat) : List Subrange2 :=
  split_equal2 (computeTaskSubrange2 gs0 gs1) (num_worker_nodes num_nodes)

theorem split_equal2_length (sr : Subrange2) (nc : Nat) :
    (split_equal2 sr nc).length = nc := by
  simp [split_equal2, split_equal1_length]

theorem split_equal2_get (sr : Subrange2) (nc i : Nat)
    (h : i < (split_equal2 sr nc).length) :
    (split_equal2 sr nc).get ⟨i, h⟩ =
      { start0 := i * (sr.range0 / nc), start1 := sr.start1,
        range0 := if i = nc - 1 then sr.range0 / nc + sr.range0 % nc else sr.range0 / nc,
        range1 := sr.range1,
        global_size0 := sr.global_size0, global_size1 := sr.global_size1 } := by
  have h1 : i < (split_equal1
      { start := sr.start0, range := sr.range0, global_size := sr.global_size0 } nc).length := by
    rw [split_equal1_length]
    rw [split_equal2_length] at h
    exact h
  have hmap : (split_equal2 sr nc).get ⟨i, h⟩ =
      (fun row : Subrange1 =>
        ({ start0 := row.start, start1 := sr.start1, range0 := row.range, range1 := sr.range1,
           global_size0 := sr.global_size0, global_size1 := sr.global_size1 } : Subrange2))
        ((split_equal1
          { start := sr.start0, range := sr.range0, global_size := sr.global_size0 } nc).get
            ⟨i, h1⟩) := by
    simp only [split_equal2, List.get_eq_getElem, List.getElem_map]
  rw [hmap, split_equal1_get]

/-- Relate 2-D coverage of a compute task's chunks to 1-D coverage of the
corresponding row split and a bound on the inner dimension. -/
theorem computeTaskChunks2_covers (gs0 gs1 num_nodes i : Nat)
    (h : i < (computeTaskChunks2 gs0 gs1 num_nodes).length)
    (h1 : i < (computeTaskChunks1 gs0 num_nodes).length) (x y : Nat) :
    covers2 ((computeTaskChunks2 gs0 gs1 num_nodes).get ⟨i, h⟩) x y ↔
      (covers1 ((computeTaskChunks1 gs0 num_nodes).get ⟨i, h1⟩) x ∧ y < gs1) := by
  unfold computeTaskChunks2 computeTaskChunks1
  rw [split_equal2_get, split_equal1_get]
  simp only [computeTaskSubrange2, computeTaskSubrange1, covers2, covers1]
  constructor
  · rintro ⟨ha, hb, -, hd⟩
    exact ⟨⟨ha, hb⟩, by omega⟩
  · rintro ⟨⟨ha, hb⟩, hy⟩
    exact ⟨ha, hb, by omega, by omega⟩

/-- C1: for a compute task of dimensionality 1 or 2 and `num_nodes ≥ 1`, the
iteration space is split into `num_chunks = max(num_nodes - 1, 1)` chunks along
the outermost dimension, each of size `range / num_chunks` except the last,
which absorbs the remainder; the chunks are pairwise disjoint and their union
is exactly the task's global range. -/
theorem compute_task_split_exact_partition (num_nodes : Nat) (hn : 1 ≤ num_nodes) :
    (∀ gs : Nat,
      (computeTaskChunks1 gs num_nodes).length = num_worker_nodes num_nodes ∧
      (∀ i (h : i < (computeTaskChunks1 gs num_nodes).length),
        ((computeTaskChunks1 gs num_nodes).get ⟨i, h⟩).start =
            i * (gs / num_worker_nodes num_nodes) ∧
        ((computeTaskChunks1 gs num_nodes).get ⟨i, h⟩).range =
            (if i = num_worker_nodes num_nodes - 1 then
              gs / num_worker_nodes num_nodes + gs % num_worker_nodes num_nodes
            else gs / num_worker_nodes num_nodes)) ∧
      (∀ x, (∃ i, ∃ h : i < (computeTaskChunks1 gs num_nodes).length,
          covers1 ((computeTaskChunks1 gs num_nodes).get ⟨i, h⟩) x) ↔ x < gs) ∧
      (∀ i j (hi : i < (computeTaskChunks1 gs num_nodes).length)
          (hj : j < (computeTaskChunks1 gs num_nodes).length) (x : Nat),
          covers1 ((computeTaskChunks1 gs num_nodes).get ⟨i, hi⟩) x →
          covers1 ((computeTaskChunks1 gs num_nodes).get ⟨j, hj⟩) x → i = j)) ∧
    (∀ gs0 gs1 : Nat,
      (computeTaskChunks2 gs0 gs1 num_nodes).length = num_worker_nodes num_nodes ∧
      (∀ i (h : i < (computeTaskChunks2 gs0 gs1 num_nodes).length),
        ((computeTaskChunks2 gs0 gs1 num_nodes).get ⟨i, h⟩).start1 = 0 ∧
        ((computeTaskChunks2 gs0 gs1 num_nodes).get ⟨i, h⟩).range1 = gs1) ∧
      (∀ x y, (∃ i, ∃ h : i < (computeTaskChunks2 gs0 gs1 num_nodes).length,
          covers2 ((computeTaskChunks2 gs0 gs1 num_nodes).get ⟨i, h⟩) x y) ↔
            (x < gs0 ∧ y < gs1)) ∧
      (∀ i j (hi : i < (computeTaskChunks2 gs0 gs1 num_nodes).length)
          (hj : j < (computeTaskChunks2 gs0 gs1 num_nodes).length) (x y : Nat),
          covers2 ((computeTaskChunks2 gs0 gs1 num_nodes).get ⟨i, hi⟩) x y →
          covers2 ((computeTaskChunks2 gs0 gs1 num_nodes).get ⟨j, hj⟩) x y → i = j)) := by
  have hnc : 0 < num_worker_nodes num_nodes := le_max_right _ _
  constructor
  · intro gs
    refine ⟨split_equal1_length _ _, ?_, ?_, ?_⟩
    · intro i h
      unfold computeTaskChunks1 at h ⊢
      rw [split_equal1_get]
      exact ⟨rfl, rfl⟩
    · intro x
      exact split_equal1_covers_iff (computeTaskSubrange1 gs) _ hnc x
    · intro i j hi hj x hci hcj
      exact split_equal1_disjoint (computeTaskSubrange1 gs) _ i j hi hj x hci hcj
  · intro gs0 gs1
    refine ⟨split_equal2_length _ _, ?_, ?_, ?_⟩
    · intro i h
      unfold computeTaskChunks2 at h ⊢
      rw [split_equal2_get]
      exact ⟨rfl, rfl⟩
    · intro x y
      constructor
      · rintro ⟨i, h, hc⟩
        have h1 : i < (computeTaskChunks1 gs0 num_nodes).length := by
          simp only [computeTaskChunks1, split_equal1_length]
          simp only [computeTaskChunks2, split_equal2_length] at h
          exact h
        rw [computeTaskChunks2_covers gs0 gs1 num_nodes i h h1] at hc
        have hx := (split_equal1_covers_iff (computeTaskSubrange1 gs0) _ hnc x).mp
          ⟨i, h1, hc.1⟩
        exact ⟨hx, hc.2⟩
      · rintro ⟨hx, hy⟩
        rcases (split_equal1_covers_iff (computeTaskSubrange1 gs0) _ hnc x).mpr hx with
          ⟨i, h1, hc⟩
        have h : i < (computeTaskChunks2 gs0 gs1 num_nodes).length := by
          simp only [computeTaskChunks2, split_equal2_length]
          rw [split_equal1_length] at h1
          exact h1
        have h1c : i < (computeTaskChunks1 gs0 num_nodes).length := h1
        exact ⟨i, h,
          (computeTaskChunks2_covers gs0 gs1 num_nodes i h h1c x y).mpr ⟨hc, hy⟩⟩
    · intro i j hi hj x y hci hcj
      have hi1 : i < (computeTaskChunks1 gs0 num_nodes).length := by
        simp only [computeTaskChunks1, split_equal1_length]
        simp only [computeTaskChunks2, split_equal2_length] at hi
        exact hi
      have hj1 : j < (computeTaskChunks1 gs0 num_nodes).length := by
        simp only [computeTaskChunks1, split_equal1_length]
        simp only [computeTaskChunks2, split_equal2_length] at hj
        exact hj
      rw [computeTaskChunks2_covers gs0 gs1 num_nodes i hi hi1] at hci
      rw [computeTaskChunks2_covers gs0 gs1 num_nodes j hj hj1] at hcj
      exact split_equal1_disjoint (computeTaskSubrange1 gs0) _ i j hi1 hj1 x hci.1 hcj.1

/-- C1 witness: the theorem instantiated at `num_nodes = 3`. -/
theorem compute_task_split_exact_partition_witness :
    (computeTaskChunks1 10 3).length = num_worker_nodes 3 :=
  ((compute_task_split_exact_partition 3 (by decide)).1 10).1

/-- C8: for every 3-D subrange and every chunk count, `split_equal` on
`subrange<3>` raises an error ("3D split_equal NYI") rather than returning a
chunk list. -/
theorem split_equal3_always_fails (sr : Subrange3) (num_chunks : Nat) :
    split_equal3 sr num_chunks = Except.error "3D split_equal NYI" := rfl

/-- C10: the 1-D `split_equal` ignores `sr.start` entirely; its chunks start at
offset 0 and tile `[0, sr.range)`, so for an input with `sr.start ≠ 0` (here
`sr = ⟨5, 10, 10⟩`, 2 chunks) the union of the chunks differs from
`[sr.start, sr.start + sr.range)`: index 0 is covered by a chunk but does not
lie in `[5, 15)`. -/
theorem split_equal1_ignores_start (sr : Subrange1) (num_chunks : Nat)
    (hnc : 0 < num_chunks) :
    split_equal1 sr num_chunks =
        split_equal1 { start := 0, range := sr.range, global_size := sr.global_size }
          num_chunks ∧
    (∀ i (h : i < (split_equal1 sr num_chunks).length),
        ((split_equal1 sr num_chunks).get ⟨i, h⟩).start = i * (sr.range / num_chunks)) ∧
    (∀ x, (∃ i, ∃ h : i < (split_equal1 sr num_chunks).length,
        covers1 ((split_equal1 sr num_chunks).get ⟨i, h⟩) x) ↔ x < sr.range) ∧
    (∃ i, ∃ h : i < (split_equal1 { start := 5, range := 10, global_size := 10 } 2).length,
        covers1 ((split_equal1 { start := 5, range := 10, global_size := 10 } 2).get ⟨i, h⟩) 0 ∧
        ¬ ((5 : Nat) ≤ 0 ∧ (0 : Nat) < 5 + 10)) := by
  refine ⟨rfl, ?_, ?_, ?_⟩
  · intro i h
    rw [split_equal1_get]
  · intro x
    exact split_equal1_covers_iff sr num_chunks hnc x
  · exact ⟨0, by decide, by decide, by decide⟩

/-- C10 witness: the theorem instantiated at `sr = ⟨5, 10, 10⟩`,
`num_chunks = 2`; chunk 0 starts at offset 0. -/
theorem split_equal1_ignores_start_witness :
    ((split_equal1 { start := 5, range := 10, global_size := 10 } 2).get
        ⟨0, by decide⟩).start = 0 * (10 / 2) :=
  (split_equal1_ignores_start { start := 5, range := 10, global_size := 10 } 2
    (by decide)).2.1 0 (by decide)

/-! ## Chunk-to-node assignment (assign_chunks_to_nodes, runtime.cc 215-267)

`free_nodes` is a `std::set<node_id>`: modelled as a strictly increasing list
(its iteration order); `*free_nodes.cbegin()` is the head, `erase` is
`List.erase`.

`chunk_reqs` is keyed by chunk id; per chunk it holds a map from `buffer_id`
to per-mode requirements, iterated in some order.  The per-chunk map is
modelled as the list of its entries in iteration order, each entry carrying
the data the function reads from it: the buffer id and, when the entry holds a
read-mode requirement, the value `bs->get_source_nodes(read_req)` (the buffer
state is external to the sources; `get_source_nodes` results are supplied as
inputs).  Modelled from the spec: the node sets inside those results are kept
in a canonical sorted order (spec §4.2/§9: "implementations must define and
preserve a canonical ordering"); the box geometry of the cover does not
influence this function and is omitted from the entries.

`chunk_reqs.at(i)` on a missing key and failing `assert`s are modelled as
errors. -/

/-- One entry of a chunk's requirement map, in iteration order.  `readSources`
is `some sns` when the entry has a read-mode requirement, where `sns` is the
list of node sets (one per box) returned by `get_source_nodes`. -/
structure BufferReq where
  bid : Nat
  readSources : Option (List (List Nat))
deriving DecidableEq, Repr

/-- Failure modes of the embedded graph-generation fragments. -/
inductive GenError where
  /-- `std::unordered_map::at` on a missing key (`std::out_of_range`). -/
  | out_of_range
  /-- a failing `assert`. -/
  | assert_failed
deriving DecidableEq, Repr

/-- `std::set_intersection` over two sorted ranges (runtime.cc 248), with
`<` as the comparator, producing the output list. -/
def set_intersection : List Nat → List Nat → List Nat
  | [], _ => []
  | _ :: _, [] => []
  | a :: as, b :: bs =>
    if a < b then set_intersection as (b :: bs)
    else if b < a then set_intersection (a :: as) bs
    else a :: set_intersection as bs
termination_by l₁ l₂ => l₁.length + l₂.length

/-- The body of the per-buffer loop for one chunk (runtime.cc 222-263).
Arguments mirror the mutable state: `node_assigned`, `free` (`free_nodes`),
`sources` (`chunk_buffer_sources`, an association list keyed by
`(chunk, buffer)`), `cn` (`chunk_nodes`, an association list).  Returns the
updated state or an error for a failing assert. -/
def assignChunkLoop (i : Nat) :
    List BufferReq → Bool → List Nat → List ((Nat × Nat) × List (List Nat)) →
    List (Nat × Nat) →
    Except GenError (Bool × List Nat × List ((Nat × Nat) × List (List Nat)) × List (Nat × Nat))
  | [], node_assigned, free, sources, cn => Except.ok (node_assigned, free, sources, cn)
  | req :: rest, node_assigned, free, sources, cn =>
    -- std::unordered_set<node_id> source_nodes; (starts empty, filled on read);
    -- on a read: assert(!sn.empty()); chunk_buffer_sources[i][bid] = sn;
    -- source_nodes = sn[0].second
    match
      (match req.readSources with
        | some sn =>
          if sn = [] then Except.error GenError.assert_failed
          else Except.ok (sn.headD [], sources ++ [((i, req.bid), sn)])
        | none =>
          (Except.ok ([], sources) :
            Except GenError (List Nat × List ((Nat × Nat) × List (List Nat))))) with
    | Except.error e => Except.error e
    | Except.ok (source_nodes, sources2) =>
      -- the if(!node_assigned) block (runtime.cc 237-262)
      if node_assigned then assignChunkLoop i rest true free sources2 cn
      else
        if free = [] then Except.error GenError.assert_failed  -- assert(free_nodes.size() > 0)
        else
          let nid :=
            if source_nodes ≠ [] then
              let intersection := set_intersection free source_nodes
              if intersection ≠ [] then intersection.headD 0 else free.headD 0
            else free.headD 0
          assignChunkLoop i rest true (free.erase nid) sources2 (cn ++ [(i, nid)])

/-- The outer loop of `assign_chunks_to_nodes` (runtime.cc 218-264):
`remaining` chunks left to process, `i` the current chunk id. -/
def assignLoop (chunk_reqs : Nat → Option (List BufferReq)) :
    Nat → Nat → List Nat → List ((Nat × Nat) × List (List Nat)) → List (Nat × Nat) →
    Except GenError (List (Nat × Nat) × List ((Nat × Nat) × List (List Nat)))
  | 0, _, _, sources, cn => Except.ok (cn, sources)
  | Nat.succ rem, i, free, sources, cn =>
    match chunk_reqs i with
    | none => Except.error GenError.out_of_range  -- chunk_reqs.at(i) throws
    | some reqs =>
      match assignChunkLoop i reqs false free sources cn with
      | Except.error e => Except.error e
      | Except.ok (_, free, sources, cn) => assignLoop chunk_reqs rem (i + 1) free sources cn

/-- `assign_chunks_to_nodes(num_chunks, chunk_reqs, valid_buffer_regions,
free_nodes, chunk_buffer_sources)` (runtime.cc 215-267).  Returns the
`chunk_nodes` map and the filled `chunk_buffer_sources`. -/
def assign_chunks_to_nodes (num_chunks : Nat) (chunk_reqs : Nat → Option (List BufferReq))
    (free_nodes : List Nat) :
    Except GenError (List (Nat × Nat) × List ((Nat × Nat) × List (List Nat))) :=
  assignLoop chunk_reqs num_chunks 0 free_nodes [] []

/-- The node choice prescribed by claim C2 as stated, for one chunk: take the
chunk's first READ buffer in iteration order over its requirement map; if the
intersection of the free nodes with that buffer's source nodes (first box of
the cover) is non-empty, pick its smallest element; otherwise (including when
the chunk has no reads) the smallest free node.  `free` is sorted ascending,
so the head of the filtered list is the least element of the intersection and
`free.head?` is the least free node. -/
def claimedChoiceFirstReadBuffer (reqs : List BufferReq) (free : List Nat) : Option Nat :=
  match reqs.find? (fun r => r.readSources.isSome) with
  | some r =>
    let s := (r.readSources.getD []).headD []
    let inter := free.filter (fun n => decide (n ∈ s))
    if inter ≠ [] then inter.head? else free.head?
  | none => free.head?

/-- The node choice the code actually implements, for one chunk (the amended
claim): take the chunk's first buffer in iteration order over its requirement
map — whether or not it has a read.  If that buffer has a read requirement its
first box's source-node set drives the choice (smallest member of the
intersection with the free nodes, when non-empty); otherwise the smallest free
node, even if a later buffer has a read.  A chunk with an empty requirement
map gets no node.  `free` is sorted ascending. -/
def claimedChoiceFirstBuffer (reqs : List BufferReq) (free : List Nat) : Option Nat :=
  match reqs with
  | [] => none
  | r :: _ =>
    let s := match r.readSources with
      | some sn => sn.headD []
      | none => []
    let inter := free.filter (fun n => decide (n ∈ s))
    if inter ≠ [] then inter.head? else free.head?

/-- The amended claim's greedy loop: process chunks in order, choose a node
per `claimedChoiceFirstBuffer`, remove it from the free list. -/
def claimedAssignGo (chunk_reqs : Nat → Option (List BufferReq)) :
    Nat → Nat → List Nat → Option (List (Nat × Nat))
  | 0, _, _ => some []
  | Nat.succ rem, i, free =>
    match chunk_reqs i with
    | none => none
    | some reqs =>
      match claimedChoiceFirstBuffer reqs free with
      | none => none
      | some nid =>
        (claimedAssignGo chunk_reqs rem (i + 1) (free.erase nid)).map
          (fun tl => (i, nid) :: tl)

/-- The amended claim's assignment for `num_chunks` chunks. -/
def claimedAssign (num_chunks : Nat) (chunk_reqs : Nat → Option (List BufferReq))
    (free : List Nat) : Option (List (Nat × Nat)) :=
  claimedAssignGo chunk_reqs num_chunks 0 free

/-- On sorted inputs, `std::set_intersection` computes exactly the sorted
intersection, i.e. the filter of the first list by membership in the second. -/
theorem set_intersection_eq_filter :
    ∀ a b : List Nat, List.Sorted (· < ·) a → List.Sorted (· < ·) b →
      set_intersection a b = a.filter (fun n => decide (n ∈ b)) := by
  intro a b
  induction a, b using set_intersection.induct with
  | case1 b =>
    intro _ _
    simp [set_intersection]
  | case2 a as =>
    intro _ _
    simp [set_intersection]
  | case3 a as b bs hab ih =>
    intro ha hb
    have has : List.Sorted (· < ·) as := (List.sorted_cons.mp ha).2
    simp only [set_intersection]
    rw [if_pos hab, ih has hb]
    have h1 : a ≠ b := by omega
    have h2 : a ∉ bs := by
      intro hm
      have := (List.sorted_cons.mp hb).1 a hm
      omega
    simp [List.filter_cons, h1, h2]
  | case4 a as b bs hab hba ih =>
    intro ha hb
    have hbs : List.Sorted (· < ·) bs := (List.sorted_cons.mp hb).2
    simp only [set_intersection]
    rw [if_neg hab, if_pos hba, ih ha hbs]
    apply List.filter_congr
    intro x hx
    have hax : a ≤ x := by
      rcases List.mem_cons.mp hx with h1 | h1
      · omega
      · have := (List.sorted_cons.mp ha).1 x h1
        omega
    have hxb : x ≠ b := by omega
    show decide (x ∈ bs) = decide (x ∈ b :: bs)
    rw [decide_eq_decide]
    simp [List.mem_cons, hxb]
  | case5 a as b bs hab hba ih =>
    intro ha hb
    have heq : a = b := by omega
    have has : List.Sorted (· < ·) as := (List.sorted_cons.mp ha).2
    have hbs : List.Sorted (· < ·) bs := (List.sorted_cons.mp hb).2
    simp only [set_intersection]
    rw [if_neg hab, if_neg hba, ih has hbs]
    have h1 : (a :: as).filter (fun n => decide (n ∈ b :: bs)) =
        a :: as.filter (fun n => decide (n ∈ b :: bs)) := by
      simp [List.filter_cons, heq]
    rw [h1]
    congr 1
    apply List.filter_congr
    intro x hx
    have hax : a < x := (List.sorted_cons.mp ha).1 x hx
    have hxb : x ≠ b := by omega
    show decide (x ∈ bs) = decide (x ∈ b :: bs)
    rw [decide_eq_decide]
    simp [List.mem_cons, hxb]

theorem filter_mem_nil_eq (l : List Nat) :
    l.filter (fun n => decide (n ∈ ([] : List Nat))) = [] := by
  induction l with
  | nil => rfl
  | cons a t ih => simp [List.filter_cons, ih]

theorem head_opt_eq_headD {l : List Nat} (h : l ≠ []) : l.head? = some (l.headD 0) := by
  cases l with
  | nil => exact absurd rfl h
  | cons a t => rfl

theorem headD_mem {l : List Nat} (h : l ≠ []) : l.headD 0 ∈ l := by
  cases l with
  | nil => exact absurd rfl h
  | cons a t => exact List.mem_cons_self a t

/-- The amended per-chunk choice always picks some member of a non-empty free
list when the chunk has at least one buffer requirement. -/
theorem claimedChoiceFirstBuffer_spec (reqs : List BufferReq) (free : List Nat)
    (h1 : reqs ≠ []) (h2 : free ≠ []) :
    ∃ nid, claimedChoiceFirstBuffer reqs free = some nid ∧ nid ∈ free := by
  match reqs with
  | [] => exact absurd rfl h1
  | r :: rest =>
    match hr : r.readSources with
    | some sn =>
      by_cases hie : free.filter (fun n => decide (n ∈ sn.headD [])) = []
      · refine ⟨free.headD 0, ?_, headD_mem h2⟩
        simp only [claimedChoiceFirstBuffer, hr]
        rw [if_neg (not_not_intro hie)]
        exact head_opt_eq_headD h2
      · refine ⟨(free.filter (fun n => decide (n ∈ sn.headD []))).headD 0, ?_, ?_⟩
        · simp only [claimedChoiceFirstBuffer, hr]
          rw [if_pos hie]
          exact head_opt_eq_headD hie
        · exact (List.mem_filter.mp (headD_mem hie)).1
    | none =>
      refine ⟨free.headD 0, ?_, headD_mem h2⟩
      simp only [claimedChoiceFirstBuffer, hr, filter_mem_nil_eq]
      rw [if_neg (not_not_intro rfl)]
      exact head_opt_eq_headD h2

/-- Once `node_assigned` is true, the rest of a chunk's buffer loop only fills
`chunk_buffer_sources`; the free list and the chunk map are unchanged
(runtime.cc 222-235 with `node_assigned == true`). -/
theorem assignChunkLoop_assigned (i : Nat) :
    ∀ (rest : List BufferReq) (free : List Nat)
      (sources : List ((Nat × Nat) × List (List Nat))) (cn : List (Nat × Nat)),
      (∀ r ∈ rest, ∀ sn, r.readSources = some sn → sn ≠ []) →
      ∃ sources2, assignChunkLoop i rest true free sources cn =
        Except.ok (true, free, sources2, cn)
  | [], free, sources, cn, _ => ⟨sources, rfl⟩
  | r :: rest, free, sources, cn, hok => by
    have htail : ∀ r' ∈ rest, ∀ sn', r'.readSources = some sn' → sn' ≠ [] :=
      fun r' hm sn' hr' => hok r' (List.mem_cons_of_mem r hm) sn' hr'
    match hr : r.readSources with
    | some sn =>
      have hne : sn ≠ [] := hok r (List.mem_cons_self r rest) sn hr
      obtain ⟨s2, hs2⟩ :=
        assignChunkLoop_assigned i rest free (sources ++ [((i, r.bid), sn)]) cn htail
      refine ⟨s2, ?_⟩
      simp only [assignChunkLoop, hr, if_neg hne]
      exact hs2
    | none =>
      obtain ⟨s2, hs2⟩ := assignChunkLoop_assigned i rest free sources cn htail
      refine ⟨s2, ?_⟩
      simp only [assignChunkLoop, hr]
      exact hs2

/-- The per-chunk buffer loop starting unassigned assigns exactly the node
prescribed by the amended claim, erases it from the free list and appends it
to the chunk map (runtime.cc 218-263 for one chunk). -/
theorem assignChunkLoop_unassigned (i : Nat) (reqs : List BufferReq) (free : List Nat)
    (sources : List ((Nat × Nat) × List (List Nat))) (cn : List (Nat × Nat)) (nid : Nat)
    (hfree : List.Sorted (· < ·) free)
    (hok : ∀ r ∈ reqs, ∀ sn, r.readSources = some sn →
      sn ≠ [] ∧ List.Sorted (· < ·) (sn.headD []))
    (hfne : free ≠ [])
    (hchoice : claimedChoiceFirstBuffer reqs free = some nid) :
    ∃ sources2, assignChunkLoop i reqs false free sources cn =
      Except.ok (true, free.erase nid, sources2, cn ++ [(i, nid)]) := by
  match reqs with
  | [] => simp [claimedChoiceFirstBuffer] at hchoice
  | r :: rest =>
    have htail : ∀ r' ∈ rest, ∀ sn', r'.readSources = some sn' → sn' ≠ [] :=
      fun r' hm sn' hr' => (hok r' (List.mem_cons_of_mem r hm) sn' hr').1
    match hr : r.readSources with
    | none =>
      -- claimed choice: no read on the first buffer, smallest free node
      have hs : claimedChoiceFirstBuffer (r :: rest) free = free.head? := by
        simp [claimedChoiceFirstBuffer, hr, filter_mem_nil_eq]
      rw [hs, head_opt_eq_headD hfne] at hchoice
      have hnid : free.headD 0 = nid := by injection hchoice
      obtain ⟨s2, hs2⟩ := assignChunkLoop_assigned i rest (free.erase nid) sources
        (cn ++ [(i, nid)]) htail
      refine ⟨s2, ?_⟩
      have hnideq : (if ([] : List Nat) ≠ [] then
          (if set_intersection free [] ≠ [] then (set_intersection free []).headD 0
            else free.headD 0)
          else free.headD 0) = nid := by
        rw [if_neg (not_not_intro rfl)]
        exact hnid
      simp only [assignChunkLoop, hr, if_neg hfne]
      rw [hnideq]
      exact hs2
    | some sn =>
      obtain ⟨hsne, hsorted⟩ := hok r (List.mem_cons_self r rest) sn hr
      have hinter : set_intersection free (sn.headD []) =
          free.filter (fun n => decide (n ∈ sn.headD [])) :=
        set_intersection_eq_filter free _ hfree hsorted
      have hclaim : claimedChoiceFirstBuffer (r :: rest) free =
          (if free.filter (fun n => decide (n ∈ sn.headD [])) ≠ [] then
            (free.filter (fun n => decide (n ∈ sn.headD []))).head?
          else free.head?) := by
        simp only [claimedChoiceFirstBuffer, hr]
      by_cases hie : free.filter (fun n => decide (n ∈ sn.headD [])) = []
      · -- empty intersection: smallest free node
        rw [hclaim, if_neg (not_not_intro hie), head_opt_eq_headD hfne] at hchoice
        have hnid : free.headD 0 = nid := by injection hchoice
        obtain ⟨s2, hs2⟩ := assignChunkLoop_assigned i rest (free.erase nid)
          (sources ++ [((i, r.bid), sn)]) (cn ++ [(i, nid)]) htail
        refine ⟨s2, ?_⟩
        have hnideq : (if (sn.headD []) ≠ [] then
            (if set_intersection free (sn.headD []) ≠ [] then
              (set_intersection free (sn.headD [])).headD 0
            else free.headD 0)
            else free.headD 0) = nid := by
          by_cases hs0 : (sn.headD []) ≠ []
          · rw [if_pos hs0, hinter, if_neg (not_not_intro hie)]
            exact hnid
          · rw [if_neg hs0]
            exact hnid
        simp only [assignChunkLoop, hr, if_neg hsne, if_neg hfne]
        rw [hnideq]
        exact hs2
      · -- non-empty intersection: its smallest element
        rw [hclaim, if_pos hie, head_opt_eq_headD hie] at hchoice
        have hnid : (free.filter (fun n => decide (n ∈ sn.headD []))).headD 0 = nid := by
          injection hchoice
        obtain ⟨s2, hs2⟩ := assignChunkLoop_assigned i rest (free.erase nid)
          (sources ++ [((i, r.bid), sn)]) (cn ++ [(i, nid)]) htail
        refine ⟨s2, ?_⟩
        have hs0 : (sn.headD []) ≠ [] := by
          intro h0
          rw [h0, filter_mem_nil_eq] at hie
          exact hie rfl
        have hnideq : (if (sn.headD []) ≠ [] then
            (if set_intersection free (sn.headD []) ≠ [] then
              (set_intersection free (sn.headD [])).headD 0
            else free.headD 0)
            else free.headD 0) = nid := by
          rw [if_pos hs0, hinter, if_pos hie]
          exact hnid
        simp only [assignChunkLoop, hr, if_neg hsne, if_neg hfne]
        rw [hnideq]
        exact hs2

/-- The outer assignment loop agrees with the amended claim's greedy loop:
chunk `i+k` is mapped for `k < rem` in order, each to the node chosen by
`claimedChoiceFirstBuffer` on the then-current free list; chosen nodes come
from the free list and are pairwise distinct. -/
theorem assignLoop_matches (chunk_reqs : Nat → Option (List BufferReq)) :
    ∀ (rem i : Nat) (free : List Nat) (sources : List ((Nat × Nat) × List (List Nat)))
      (cn : List (Nat × Nat)),
      List.Sorted (· < ·) free → rem ≤ free.length →
      (∀ j, i ≤ j → j < i + rem → ∃ reqs, chunk_reqs j = some reqs ∧ reqs ≠ [] ∧
        ∀ r ∈ reqs, ∀ sn, r.readSources = some sn →
          sn ≠ [] ∧ List.Sorted (· < ·) (sn.headD [])) →
      ∃ cnT sources2,
        assignLoop chunk_reqs rem i free sources cn = Except.ok (cn ++ cnT, sources2) ∧
        claimedAssignGo chunk_reqs rem i free = some cnT ∧
        (cnT.map Prod.snd).Nodup ∧ (∀ p ∈ cnT, p.2 ∈ free) ∧
        cnT.map Prod.fst = List.range' i rem := by
  intro rem
  induction rem with
  | zero =>
    intro i free sources cn _ _ _
    exact ⟨[], sources, by simp [assignLoop], rfl, List.nodup_nil, by simp, rfl⟩
  | succ rem ih =>
    intro i free sources cn hfree hlen hreqs
    obtain ⟨reqs, hcr, hrne, hrok⟩ := hreqs i (le_refl i) (by omega)
    have hfne : free ≠ [] := by
      intro h
      rw [h] at hlen
      simp at hlen
    obtain ⟨nid, hnid, hnidmem⟩ := claimedChoiceFirstBuffer_spec reqs free hrne hfne
    obtain ⟨sources2, hstep⟩ :=
      assignChunkLoop_unassigned i reqs free sources cn nid hfree hrok hfne hnid
    have hfree2 : List.Sorted (· < ·) (free.erase nid) :=
      List.Pairwise.sublist (List.erase_sublist nid free) hfree
    have hlen2 : rem ≤ (free.erase nid).length := by
      rw [List.length_erase_of_mem hnidmem]
      omega
    have hreqs2 : ∀ j, i + 1 ≤ j → j < (i + 1) + rem → ∃ reqs, chunk_reqs j = some reqs ∧
        reqs ≠ [] ∧ ∀ r ∈ reqs, ∀ sn, r.readSources = some sn →
          sn ≠ [] ∧ List.Sorted (· < ·) (sn.headD []) :=
      fun j h1 h2 => hreqs j (by omega) (by omega)
    obtain ⟨cnT, sources3, hloop, hclaim, hnodup, hmem, hkeys⟩ :=
      ih (i + 1) (free.erase nid) sources2 (cn ++ [(i, nid)]) hfree2 hlen2 hreqs2
    refine ⟨(i, nid) :: cnT, sources3, ?_, ?_, ?_, ?_, ?_⟩
    · show assignLoop chunk_reqs (rem + 1) i free sources cn = _
      simp only [assignLoop, hcr, hstep, hloop]
      rw [List.append_assoc] at hloop
      simpa using hloop
    · show claimedAssignGo chunk_reqs (rem + 1) i free = _
      simp only [claimedAssignGo, hcr, hnid, hclaim]
      rfl
    · refine List.Pairwise.cons ?_ hnodup
      intro b hb
      rcases List.mem_map.mp hb with ⟨p, hp, hpeq⟩
      have := hmem p hp
      intro heq
      rw [hpeq, ← heq] at this
      exact (List.Nodup.not_mem_erase (List.Sorted.nodup hfree)) this
    · intro p hp
      rcases List.mem_cons.mp hp with h1 | h1
      · rw [h1]
        exact hnidmem
      · exact List.mem_of_mem_erase (hmem p h1)
    · simp only [List.map_cons, hkeys, List.range'_succ]

/-- C2 counterexample requirement map: the chunk's first buffer (bid 0) in
iteration order is write-only; the second buffer (bid 1) has a read whose
source nodes are {2}. -/
def exampleChunkReqs : List BufferReq :=
  [{ bid := 0, readSources := none }, { bid := 1, readSources := some [[2]] }]

/-- C2 counterexample: with free nodes {1, 2} and one chunk whose FIRST buffer
is write-only while its SECOND buffer reads data held by node 2, the claim as
stated prescribes node 2 (the first READ buffer's source set intersected with
the free nodes), but the code assigns node 1: assignment happens at the first
buffer of the requirement map whether or not it has a read. -/
theorem assign_chunks_first_read_buffer_refuted :
    assign_chunks_to_nodes 1 (fun i => if i = 0 then some exampleChunkReqs else none)
        [1, 2] = Except.ok ([(0, 1)], [((0, 1), [[2]])]) ∧
    claimedChoiceFirstReadBuffer exampleChunkReqs [1, 2] = some 2 := by
  exact ⟨rfl, rfl⟩

/-- C2 (amended): processing chunks in order, the code considers the chunk's
FIRST buffer in iteration order over its requirement map (not its first READ
buffer): if that buffer has a read requirement and the intersection of
`free_nodes` with its first box's source nodes is non-empty, the chunk is
assigned the smallest element of that intersection; otherwise — including when
that first buffer has no read, even if a later buffer does — the smallest free
node.  The chosen node is removed from `free_nodes`, so no two chunks share a
node.  Hypotheses: the free list is sorted (std::set iteration order), holds
enough nodes, every chunk has a requirement-map entry with at least one
buffer, and `get_source_nodes` results are non-empty with canonically sorted
node sets. -/
theorem assign_chunks_matches_amended_claim (num_chunks : Nat)
    (chunk_reqs : Nat → Option (List BufferReq)) (free : List Nat)
    (hfree : List.Sorted (· < ·) free)
    (hlen : num_chunks ≤ free.length)
    (hreqs : ∀ j, j < num_chunks → ∃ reqs, chunk_reqs j = some reqs ∧ reqs ≠ [] ∧
      ∀ r ∈ reqs, ∀ sn, r.readSources = some sn →
        sn ≠ [] ∧ List.Sorted (· < ·) (sn.headD [])) :
    ∃ cn sources, assign_chunks_to_nodes num_chunks chunk_reqs free =
        Except.ok (cn, sources) ∧
      claimedAssign num_chunks chunk_reqs free = some cn ∧
      (cn.map Prod.snd).Nodup ∧ (∀ p ∈ cn, p.2 ∈ free) ∧
      cn.map Prod.fst = List.range num_chunks := by
  obtain ⟨cnT, sources2, hloop, hclaim, hnodup, hmem, hkeys⟩ :=
    assignLoop_matches chunk_reqs num_chunks 0 free [] [] hfree hlen
      (fun j h1 h2 => hreqs j (by omega))
  refine ⟨cnT, sources2, ?_, hclaim, hnodup, hmem, ?_⟩
  · simpa [assign_chunks_to_nodes] using hloop
  · rw [hkeys, List.range_eq_range']

/-- C2 witness for the amended theorem: two chunks, free nodes {1, 2, 3};
chunk 0 reads data held on node 3 and is assigned node 3; chunk 1 has a
write-only first buffer and gets the smallest remaining free node, node 1. -/
theorem assign_chunks_matches_amended_claim_witness :
    ∃ cn sources,
      assign_chunks_to_nodes 2
          (fun i => if i = 0 then some [{ bid := 5, readSources := some [[3], [2, 3]] }]
            else if i = 1 then some [{ bid := 6, readSources := none }] else none)
          [1, 2, 3] = Except.ok (cn, sources) ∧
      claimedAssign 2
          (fun i => if i = 0 then some [{ bid := 5, readSources := some [[3], [2, 3]] }]
            else if i = 1 then some [{ bid := 6, readSources := none }] else none)
          [1, 2, 3] = some cn ∧
      (cn.map Prod.snd).Nodup ∧ (∀ p ∈ cn, p.2 ∈ [1, 2, 3]) ∧
      cn.map Prod.fst = List.range 2 := by
  apply assign_chunks_matches_amended_claim
  · decide
  · decide
  · intro j hj
    match j, hj with
    | 0, _ =>
      refine ⟨_, rfl, by decide, ?_⟩
      intro r hr sn hsn
      simp only [List.mem_singleton] at hr
      rw [hr] at hsn
      injection hsn with hsn
      rw [← hsn]
      exact ⟨by decide, by decide⟩
    | 1, _ =>
      refine ⟨_, rfl, by decide, ?_⟩
      intro r hr sn hsn
      simp only [List.mem_singleton] at hr
      rw [hr] at hsn
      cases hsn

/-! ## command_graph (command_graph.h 94-163)

Commands are stored in an arena keyed by `cid`; dependency edges are the union
of the per-command dependency lists (`abstract_command::add_dependency` from
`command.h`, outside the given sources, records `{dependee, is_anti}` on the
depender; the edge list below is that information).  `execution_fronts` is a
map `node_id → set<command*>`, modelled as an association list of cid-lists.
`pseudo_critical_path_length` lives on the command; modelled from the spec
(§3: "every command knows its `pseudo_critical_path_length` = 1 + max over
dependees"), it is bumped on `add_dependency`. -/

/-- The data of an `abstract_command` relevant here.  `isNop` records whether
the command was created as a `nop_command`; `isTask`/`tid` model the
`task_command` subclass used for the `by_task` index. -/
structure Cmd where
  cid : Nat
  nid : Nat
  isNop : Bool
  isTask : Bool
  tid : Nat
  pcpl : Nat
deriving DecidableEq, Repr

/-- Association-list helpers for `flat_map<node_id, set>` /
`unordered_map` indices. -/
def alookup {β : Type} : List (Nat × β) → Nat → Option β
  | [], _ => none
  | (k, v) :: rest, k' => if k = k' then some v else alookup rest k'

def aset {β : Type} (l : List (Nat × β)) (k : Nat) (v : β) : List (Nat × β) :=
  if l.any (fun p => p.1 = k) then l.map (fun p => if p.1 = k then (k, v) else p)
  else l ++ [(k, v)]

/-- `command_graph` state: the command arena, the dependency-edge list
`(depender, dependee, is_anti)`, the `by_task` index, the per-node execution
fronts and `max_pseudo_critical_path_length`. -/
structure CommandGraph where
  next_cmd_id : Nat
  commands : List Cmd
  deps : List (Nat × Nat × Bool)
  by_task : List (Nat × List Nat)
  execution_fronts : List (Nat × List Nat)
  max_pcpl : Nat
deriving DecidableEq, Repr

def emptyGraph : CommandGraph :=
  { next_cmd_id := 0, commands := [], deps := [], by_task := [], execution_fronts := [],
    max_pcpl := 0 }

def frontGet (fronts : List (Nat × List Nat)) (nid : Nat) : List Nat :=
  (alookup fronts nid).getD []

def frontInsert (fronts : List (Nat × List Nat)) (nid cid : Nat) :
    List (Nat × List Nat) :=
  let s := frontGet fronts nid
  aset fronts nid (if cid ∈ s then s else s ++ [cid])

def frontErase (fronts : List (Nat × List Nat)) (nid cid : Nat) :
    List (Nat × List Nat) :=
  aset fronts nid ((frontGet fronts nid).erase cid)

/-- `command_graph::create<T>` (command_graph.h 96-105): allocate the next
`cid`, store the command, append to `by_task` when it is a task command,
insert into `execution_fronts[nid]` unless `T` is `nop_command`. -/
def CommandGraph.create (g : CommandGraph) (nid : Nat) (isNop : Bool) (isTask : Bool)
    (tid : Nat) : CommandGraph × Nat :=
  let cid := g.next_cmd_id
  let cmd : Cmd := { cid := cid, nid := nid, isNop := isNop, isTask := isTask,
                     tid := tid, pcpl := 0 }
  ({ next_cmd_id := cid + 1,
     commands := g.commands ++ [cmd],
     deps := g.deps,
     by_task := if isTask then aset g.by_task tid ((alookup g.by_task tid).getD [] ++ [cid])
       else g.by_task,
     execution_fronts := if isNop then g.execution_fronts
       else frontInsert g.execution_fronts nid cid,
     max_pcpl := g.max_pcpl }, cid)

def findCmd (g : CommandGraph) (cid : Nat) : Option Cmd :=
  g.commands.find? (fun c => c.cid = cid)

/-- `command_graph::add_dependency` (command_graph.h 137-143):
`assert(depender->get_nid() == dependee->get_nid())` and
`assert(dependee != depender)`; then record the dependency on the depender,
erase the dependee from the depender's node's execution front, and raise
`max_pseudo_critical_path_length`.  `none` models a failing assert (or a
dangling command pointer, which cannot arise from the public interface). -/
def CommandGraph.add_dependency (g : CommandGraph) (depender dependee : Nat)
    (is_anti : Bool) : Option CommandGraph :=
  match findCmd g depender, findCmd g dependee with
  | some d, some e =>
    if d.nid = e.nid ∧ depender ≠ dependee then
      -- Modelled from the spec: depender->add_dependency({dependee, is_anti})
      -- updates the depender's pseudo-critical-path length to
      -- 1 + max over dependees.
      let d2 : Cmd := { d with pcpl := max d.pcpl (e.pcpl + 1) }
      some { g with
        commands := g.commands.map (fun c => if c.cid = depender then d2 else c),
        deps := g.deps ++ [(depender, dependee, is_anti)],
        execution_fronts := frontErase g.execution_fronts d.nid dependee,
        max_pcpl := max g.max_pcpl d2.pcpl }
    else none
  | _, _ => none

/-- `command_graph::remove_dependency` (command_graph.h 145): forwards to
`depender->remove_dependency(dependee)`; the execution fronts are NOT
updated. -/
def CommandGraph.remove_dependency (g : CommandGraph) (depender dependee : Nat) :
    CommandGraph :=
  { g with deps := g.deps.filter (fun d => ¬ (d.1 = depender ∧ d.2.1 = dependee)) }

/-- `cid` has a dependent: some recorded dependency edge points at it. -/
def hasDependent (g : CommandGraph) (cid : Nat) : Prop :=
  ∃ d ∈ g.deps, d.2.1 = cid

instance (g : CommandGraph) (cid : Nat) : Decidable (hasDependent g cid) := by
  unfold hasDependent; infer_instance

/-- Operations on the command graph, as invoked by the generator. -/
inductive GraphOp where
  | create (nid : Nat) (isNop : Bool) (isTask : Bool) (tid : Nat)
  | addDep (depender dependee : Nat) (is_anti : Bool)
  | removeDep (depender dependee : Nat)
deriving DecidableEq, Repr

def applyOp (g : CommandGraph) : GraphOp → Option CommandGraph
  | GraphOp.create nid isNop isTask tid => some (g.create nid isNop isTask tid).1
  | GraphOp.addDep a b anti => g.add_dependency a b anti
  | GraphOp.removeDep a b => some (g.remove_dependency a b)

/-- Run a sequence of graph operations from the empty graph; `none` when an
assertion fails along the way. -/
def runOps (ops : List GraphOp) : Option CommandGraph :=
  ops.foldlM applyOp emptyGraph

def GraphOp.isRemoveDep : GraphOp → Bool
  | GraphOp.removeDep _ _ => true
  | _ => false

theorem alookup_map_update_same {β : Type} (k : Nat) (v : β) :
    ∀ l : List (Nat × β), l.any (fun p => p.1 = k) = true →
      alookup (l.map (fun p => if p.1 = k then (k, v) else p)) k = some v := by
  intro l
  induction l with
  | nil => intro h; cases h
  | cons a rest ih =>
    rcases a with ⟨ak, av⟩
    intro h
    by_cases ha : ak = k
    · simp only [List.map_cons]
      rw [if_pos ha]
      simp [alookup]
    · simp only [List.map_cons]
      rw [if_neg ha]
      simp only [alookup, if_neg ha]
      apply ih
      simp only [List.any_cons] at h
      rcases Bool.or_eq_true_iff.mp h with h1 | h1
      · exact absurd (of_decide_eq_true h1) ha
      · exact h1

theorem alookup_map_update_ne {β : Type} (k k' : Nat) (v : β) (hk : k' ≠ k) :
    ∀ l : List (Nat × β),
      alookup (l.map (fun p => if p.1 = k then (k, v) else p)) k' = alookup l k' := by
  intro l
  induction l with
  | nil => rfl
  | cons a rest ih =>
    rcases a with ⟨ak, av⟩
    by_cases ha : ak = k
    · simp only [List.map_cons]
      rw [if_pos ha]
      simp only [alookup]
      rw [if_neg (fun h => hk h.symm), if_neg (fun h => hk (ha ▸ h.symm))]
      exact ih
    · simp only [List.map_cons]
      rw [if_neg ha]
      simp only [alookup]
      by_cases ha' : ak = k'
      · rw [if_pos ha', if_pos ha']
      · rw [if_neg ha', if_neg ha']
        exact ih

theorem alookup_eq_none_of_any_false {β : Type} (k : Nat) :
    ∀ l : List (Nat × β), l.any (fun p => p.1 = k) = false → alookup l k = none := by
  intro l
  induction l with
  | nil => intro _; rfl
  | cons a rest ih =>
    rcases a with ⟨ak, av⟩
    intro h
    simp only [List.any_cons, Bool.or_eq_false_iff] at h
    have ha : ak ≠ k := by
      intro he
      rw [he] at h
      simp at h
    simp only [alookup, if_neg ha]
    exact ih h.2

theorem alookup_append_right {β : Type} (k : Nat) (l2 : List (Nat × β)) :
    ∀ l1 : List (Nat × β), alookup l1 k = none →
      alookup (l1 ++ l2) k = alookup l2 k := by
  intro l1
  induction l1 with
  | nil => intro _; rfl
  | cons a rest ih =>
    rcases a with ⟨ak, av⟩
    intro h
    simp only [alookup] at h
    by_cases ha : ak = k
    · rw [if_pos ha] at h
      cases h
    · rw [if_neg ha] at h
      show alookup ((ak, av) :: (rest ++ l2)) k = alookup l2 k
      simp only [alookup, if_neg ha]
      exact ih h

theorem alookup_aset_same {β : Type} (l : List (Nat × β)) (k : Nat) (v : β) :
    alookup (aset l k v) k = some v := by
  unfold aset
  by_cases h : l.any (fun p => p.1 = k) = true
  · rw [if_pos h]
    exact alookup_map_update_same k v l h
  · rw [if_neg h]
    have hf : l.any (fun p => p.1 = k) = false := by
      cases hx : l.any (fun p => p.1 = k)
      · rfl
      · exact absurd hx h
    rw [alookup_append_right k _ l (alookup_eq_none_of_any_false k l hf)]
    simp [alookup]

theorem alookup_append_single_ne {β : Type} (k k' : Nat) (v : β) (hk : k' ≠ k) :
    ∀ l : List (Nat × β), alookup (l ++ [(k, v)]) k' = alookup l k' := by
  intro l
  induction l with
  | nil =>
    show alookup [(k, v)] k' = none
    simp only [alookup]
    rw [if_neg (fun he => hk he.symm)]
  | cons a rest ih =>
    rcases a with ⟨ak, av⟩
    show alookup ((ak, av) :: (rest ++ [(k, v)])) k' = alookup ((ak, av) :: rest) k'
    by_cases ha : ak = k'
    · simp only [alookup, if_pos ha]
    · simp only [alookup, if_neg ha]
      exact ih

theorem alookup_aset_ne {β : Type} (l : List (Nat × β)) (k k' : Nat) (v : β)
    (hk : k' ≠ k) : alookup (aset l k v) k' = alookup l k' := by
  unfold aset
  by_cases h : l.any (fun p => p.1 = k) = true
  · rw [if_pos h]
    exact alookup_map_update_ne k k' v hk l
  · rw [if_neg h]
    exact alookup_append_single_ne k k' v hk l

theorem frontGet_frontInsert_same (fronts : List (Nat × List Nat)) (nid cid : Nat) :
    frontGet (frontInsert fronts nid cid) nid =
      (if cid ∈ frontGet fronts nid then frontGet fronts nid
        else frontGet fronts nid ++ [cid]) := by
  unfold frontInsert frontGet
  rw [alookup_aset_same]
  rfl

theorem frontGet_frontInsert_ne (fronts : List (Nat × List Nat)) (nid nid' cid : Nat)
    (h : nid' ≠ nid) :
    frontGet (frontInsert fronts nid cid) nid' = frontGet fronts nid' := by
  unfold frontInsert frontGet
  rw [alookup_aset_ne _ _ _ _ h]

theorem frontGet_frontErase_same (fronts : List (Nat × List Nat)) (nid cid : Nat) :
    frontGet (frontErase fronts nid cid) nid = (frontGet fronts nid).erase cid := by
  unfold frontErase frontGet
  rw [alookup_aset_same]
  rfl

theorem frontGet_frontErase_ne (fronts : List (Nat × List Nat)) (nid nid' cid : Nat)
    (h : nid' ≠ nid) :
    frontGet (frontErase fronts nid cid) nid' = frontGet fronts nid' := by
  unfold frontErase frontGet
  rw [alookup_aset_ne _ _ _ _ h]

/-- The execution-front invariant of claim C4 (amended): per node, the front
holds exactly the cids of the non-nop commands on that node with no
dependents. -/
def frontInv (g : CommandGraph) : Prop :=
  ∀ nid cid, cid ∈ frontGet g.execution_fronts nid ↔
    ((∃ c, c ∈ g.commands ∧ c.cid = cid ∧ c.nid = nid ∧ c.isNop = false) ∧
      ¬ hasDependent g cid)

/-- Auxiliary well-formedness facts maintained by every graph operation. -/
def goodGraph (g : CommandGraph) : Prop :=
  (∀ c ∈ g.commands, c.cid < g.next_cmd_id) ∧
  (g.commands.map (fun c => c.cid)).Nodup ∧
  (∀ d ∈ g.deps, d.2.1 < g.next_cmd_id) ∧
  (∀ nid, (frontGet g.execution_fronts nid).Nodup) ∧
  frontInv g

theorem goodGraph_empty : goodGraph emptyGraph := by
  refine ⟨?_, ?_, ?_, ?_, ?_⟩
  · intro c hc; cases hc
  · exact List.nodup_nil
  · intro d hd; cases hd
  · intro nid; exact List.nodup_nil
  · intro nid cid
    constructor
    · intro h; cases h
    · rintro ⟨⟨c, hc, -⟩, -⟩
      cases hc

theorem goodGraph_create (g : CommandGraph) (nid : Nat) (isNop isTask : Bool) (tid : Nat)
    (hg : goodGraph g) : goodGraph (g.create nid isNop isTask tid).1 := by
  obtain ⟨hbound, hnodup, hdeps, hfnodup, hinv⟩ := hg
  set cid := g.next_cmd_id with hcid
  have hfresh_cmd : ∀ c ∈ g.commands, c.cid ≠ cid := fun c hc => Nat.ne_of_lt (hbound c hc)
  have hfresh_front : ∀ nid', cid ∉ frontGet g.execution_fronts nid' := by
    intro nid' hmem
    obtain ⟨⟨c, hc, hceq, -, -⟩, -⟩ := (hinv nid' cid).mp hmem
    exact hfresh_cmd c hc hceq
  have hfresh_dep : ¬ hasDependent g cid := by
    rintro ⟨d, hd, hdeq⟩
    have := hdeps d hd
    omega
  refine ⟨?_, ?_, ?_, ?_, ?_⟩
  · intro c hc
    rcases List.mem_append.mp hc with h1 | h1
    · exact Nat.lt_succ_of_lt (hbound c h1)
    · simp only [List.mem_singleton] at h1
      rw [h1]
      exact Nat.lt_succ_self _
  · show (List.map (fun c => c.cid) (g.commands ++ [{ cid := cid, nid := nid, isNop := isNop, isTask := isTask, tid := tid, pcpl := 0 }])).Nodup
    rw [List.map_append]
    apply List.Nodup.append hnodup (by simp)
    intro x hx hy
    simp only [List.map_cons, List.map_nil, List.mem_singleton] at hy
    rcases List.mem_map.mp hx with ⟨c, hc, hceq⟩
    rw [hy] at hceq
    exact hfresh_cmd c hc hceq
  · intro d hd
    exact Nat.lt_succ_of_lt (hdeps d hd)
  · intro nid'
    show (frontGet (if isNop then g.execution_fronts
      else frontInsert g.execution_fronts nid cid) nid').Nodup
    by_cases hnop : isNop
    · rw [if_pos hnop]
      exact hfnodup nid'
    · rw [if_neg hnop]
      by_cases hn : nid' = nid
      · rw [hn, frontGet_frontInsert_same]
        by_cases hc : cid ∈ frontGet g.execution_fronts nid
        · rw [if_pos hc]; exact hfnodup nid
        · rw [if_neg hc]
          exact List.Nodup.append (hfnodup nid) (by simp)
            (by intro x hx hy
                simp only [List.mem_singleton] at hy
                rw [hy] at hx
                exact hc hx)
      · rw [frontGet_frontInsert_ne _ _ _ _ hn]
        exact hfnodup nid'
  · intro nid' cid'
    show cid' ∈ frontGet (if isNop then g.execution_fronts
        else frontInsert g.execution_fronts nid cid) nid' ↔ _
    by_cases hcc : cid' = cid
    · subst hcc
      constructor
      · intro hmem
        by_cases hnop : isNop
        · rw [if_pos hnop] at hmem
          exact absurd hmem (hfresh_front nid')
        · rw [if_neg hnop] at hmem
          by_cases hn : nid' = nid
          · subst hn
            refine ⟨⟨{ cid := cid, nid := nid', isNop := isNop, isTask := isTask, tid := tid, pcpl := 0 }, ?_, rfl, rfl, ?_⟩, hfresh_dep⟩
            · exact List.mem_append.mpr (Or.inr (List.mem_singleton.mpr rfl))
            · exact Bool.eq_false_iff.mpr hnop
          · rw [frontGet_frontInsert_ne _ _ _ _ hn] at hmem
            exact absurd hmem (hfresh_front nid')
      · rintro ⟨⟨c, hc, hceq, hcnid, hcnop⟩, -⟩
        rcases List.mem_append.mp hc with h1 | h1
        · exact absurd hceq (hfresh_cmd c h1)
        · simp only [List.mem_singleton] at h1
          subst h1
          have hnidEq : nid = nid' := hcnid
          have hnopEq : isNop = false := hcnop
          rw [← hnidEq]
          rw [if_neg (by rw [hnopEq]; exact Bool.false_ne_true)]
          rw [frontGet_frontInsert_same]
          rw [if_neg (hfresh_front nid)]
          exact List.mem_append.mpr (Or.inr (List.mem_singleton.mpr rfl))
    · -- an old command: its front membership and dependent-status are unchanged
      have hmem_same : cid' ∈ frontGet (if isNop then g.execution_fronts
          else frontInsert g.execution_fronts nid cid) nid' ↔
          cid' ∈ frontGet g.execution_fronts nid' := by
        by_cases hnop : isNop
        · rw [if_pos hnop]
        · rw [if_neg hnop]
          by_cases hn : nid' = nid
          · rw [hn, frontGet_frontInsert_same]
            by_cases hc : cid ∈ frontGet g.execution_fronts nid
            · rw [if_pos hc]
            · rw [if_neg hc]
              constructor
              · intro hm
                rcases List.mem_append.mp hm with h1 | h1
                · exact h1
                · simp only [List.mem_singleton] at h1
                  exact absurd h1 hcc
              · intro hm
                exact List.mem_append.mpr (Or.inl hm)
          · rw [frontGet_frontInsert_ne _ _ _ _ hn]
      constructor
      · intro hm
        obtain ⟨⟨c, hc, h1, h2, h3⟩, hdep⟩ := (hinv nid' cid').mp (hmem_same.mp hm)
        exact ⟨⟨c, List.mem_append.mpr (Or.inl hc), h1, h2, h3⟩, hdep⟩
      · rintro ⟨⟨c, hc, h1, h2, h3⟩, hdep⟩
        rcases List.mem_append.mp hc with hcl | hcl
        · exact hmem_same.mpr ((hinv nid' cid').mpr ⟨⟨c, hcl, h1, h2, h3⟩, hdep⟩)
        · simp only [List.mem_singleton] at hcl
          subst hcl
          exact absurd (h1 : cid = cid').symm hcc

theorem findCmd_spec (g : CommandGraph) (a : Nat) (c : Cmd)
    (h : findCmd g a = some c) : c ∈ g.commands ∧ c.cid = a := by
  unfold findCmd at h
  refine ⟨List.mem_of_find?_eq_some h, ?_⟩
  have := List.find?_some h
  exact of_decide_eq_true this

theorem goodGraph_addDep (g g' : CommandGraph) (a b : Nat) (anti : Bool)
    (hg : goodGraph g) (h : g.add_dependency a b anti = some g') : goodGraph g' := by
  obtain ⟨hbound, hnodup, hdeps, hfnodup, hinv⟩ := hg
  match hda : findCmd g a, hdb : findCmd g b with
  | none, _ =>
    have hval : g.add_dependency a b anti = none := by
      unfold CommandGraph.add_dependency
      rw [hda]
    rw [hval] at h
    cases h
  | some d, none =>
    have hval : g.add_dependency a b anti = none := by
      unfold CommandGraph.add_dependency
      rw [hda, hdb]
    rw [hval] at h
    cases h
  | some d, some e =>
    have hval : g.add_dependency a b anti =
        (if d.nid = e.nid ∧ a ≠ b then
          some { next_cmd_id := g.next_cmd_id,
                 commands := g.commands.map
                   (fun c => if c.cid = a then { d with pcpl := max d.pcpl (e.pcpl + 1) } else c),
                 deps := g.deps ++ [(a, b, anti)],
                 by_task := g.by_task,
                 execution_fronts := frontErase g.execution_fronts d.nid b,
                 max_pcpl := max g.max_pcpl (max d.pcpl (e.pcpl + 1)) }
        else none) := by
      unfold CommandGraph.add_dependency
      rw [hda, hdb]
    rw [hval] at h
    by_cases hguard : d.nid = e.nid ∧ a ≠ b
    case neg => rw [if_neg hguard] at h; cases h
    case pos =>
      rw [if_pos hguard] at h
      injection h with h
      subst h
      obtain ⟨hd_mem, hd_cid⟩ := findCmd_spec g a d hda
      obtain ⟨he_mem, he_cid⟩ := findCmd_spec g b e hdb
      have hinj := List.inj_on_of_nodup_map hnodup
      set d2 : Cmd := { d with pcpl := max d.pcpl (e.pcpl + 1) } with hd2
      set f : Cmd → Cmd := fun c => if c.cid = a then d2 else c with hf
      have hfc : ∀ c ∈ g.commands,
          (f c).cid = c.cid ∧ (f c).nid = c.nid ∧ (f c).isNop = c.isNop := by
        intro c hc
        by_cases hca : c.cid = a
        · have hcd : c = d := hinj hc hd_mem (by simp only [hca, hd_cid])
          subst hcd
          simp [hf, hca, hd2]
        · simp [hf, hca]
      have hdep_iff : ∀ x, (∃ dp ∈ g.deps ++ [(a, b, anti)], dp.2.1 = x) ↔
          (hasDependent g x ∨ x = b) := by
        intro x
        constructor
        · rintro ⟨dp, hdp, hdpe⟩
          rcases List.mem_append.mp hdp with h1 | h1
          · exact Or.inl ⟨dp, h1, hdpe⟩
          · simp only [List.mem_singleton] at h1
            subst h1
            exact Or.inr hdpe.symm
        · rintro (⟨dp, hdp, hdpe⟩ | hx)
          · exact ⟨dp, List.mem_append.mpr (Or.inl hdp), hdpe⟩
          · exact ⟨(a, b, anti), List.mem_append.mpr (Or.inr (List.mem_singleton.mpr rfl)),
              hx.symm⟩
      have hex_iff : ∀ ci ni,
          (∃ c, c ∈ g.commands.map f ∧ c.cid = ci ∧ c.nid = ni ∧ c.isNop = false) ↔
          (∃ c, c ∈ g.commands ∧ c.cid = ci ∧ c.nid = ni ∧ c.isNop = false) := by
        intro ci ni
        constructor
        · rintro ⟨c, hc, h1, h2, h3⟩
          rcases List.mem_map.mp hc with ⟨c0, hc0, hceq⟩
          obtain ⟨e1, e2, e3⟩ := hfc c0 hc0
          rw [← hceq] at h1 h2 h3
          exact ⟨c0, hc0, by rw [← e1]; exact h1, by rw [← e2]; exact h2,
            by rw [← e3]; exact h3⟩
        · rintro ⟨c, hc, h1, h2, h3⟩
          obtain ⟨e1, e2, e3⟩ := hfc c hc
          exact ⟨f c, List.mem_map_of_mem f hc, by rw [e1]; exact h1,
            by rw [e2]; exact h2, by rw [e3]; exact h3⟩
      have hbmem : ∀ nid', nid' ≠ d.nid → b ∉ frontGet g.execution_fronts nid' := by
        intro nid' hne hmem
        obtain ⟨⟨c, hc, h1, h2, -⟩, -⟩ := (hinv nid' b).mp hmem
        have hce : c = e := hinj hc he_mem (by simp only [h1, he_cid])
        subst hce
        rw [h2] at hguard
        exact hne hguard.1.symm
      refine ⟨?_, ?_, ?_, ?_, ?_⟩
      · intro c hc
        rcases List.mem_map.mp hc with ⟨c0, hc0, hceq⟩
        rw [← hceq, (hfc c0 hc0).1]
        exact hbound c0 hc0
      · have : (g.commands.map f).map (fun c => c.cid) = g.commands.map (fun c => c.cid) := by
          rw [List.map_map]
          apply List.map_congr_left
          intro c hc
          exact (hfc c hc).1
        rw [this]
        exact hnodup
      · intro dp hdp
        rcases List.mem_append.mp hdp with h1 | h1
        · exact hdeps dp h1
        · simp only [List.mem_singleton] at h1
          subst h1
          show b < g.next_cmd_id
          rw [← he_cid]
          exact hbound e he_mem
      · intro nid'
        by_cases hn : nid' = d.nid
        · rw [hn, frontGet_frontErase_same]
          exact List.Nodup.erase b (hfnodup d.nid)
        · rw [frontGet_frontErase_ne _ _ _ _ hn]
          exact hfnodup nid'
      · intro nid' cid'
        show cid' ∈ frontGet (frontErase g.execution_fronts d.nid b) nid' ↔
          (∃ c, c ∈ g.commands.map f ∧ c.cid = cid' ∧ c.nid = nid' ∧ c.isNop = false) ∧
          ¬ (∃ dp ∈ g.deps ++ [(a, b, anti)], dp.2.1 = cid')
        rw [hex_iff]
        by_cases hcb : cid' = b
        · subst hcb
          constructor
          · intro hmem
            by_cases hn : nid' = d.nid
            · rw [hn, frontGet_frontErase_same] at hmem
              exact absurd hmem (List.Nodup.not_mem_erase (hfnodup d.nid))
            · rw [frontGet_frontErase_ne _ _ _ _ hn] at hmem
              exact absurd hmem (hbmem nid' hn)
          · rintro ⟨-, hnd⟩
            exact absurd ((hdep_iff _).mpr (Or.inr rfl)) hnd
        · have hmem_iff : cid' ∈ frontGet (frontErase g.execution_fronts d.nid b) nid' ↔
              cid' ∈ frontGet g.execution_fronts nid' := by
            by_cases hn : nid' = d.nid
            · rw [hn, frontGet_frontErase_same]
              exact List.mem_erase_of_ne hcb
            · rw [frontGet_frontErase_ne _ _ _ _ hn]
          rw [hmem_iff, hinv nid' cid']
          constructor
          · rintro ⟨hex, hnd⟩
            refine ⟨hex, ?_⟩
            intro hd2
            rcases (hdep_iff _).mp hd2 with h1 | h1
            · exact hnd h1
            · exact hcb h1
          · rintro ⟨hex, hnd⟩
            exact ⟨hex, fun hdx => hnd ((hdep_iff _).mpr (Or.inl hdx))⟩

theorem goodGraph_applyOp (g g' : CommandGraph) (op : GraphOp) (hg : goodGraph g)
    (hop : op.isRemoveDep = false) (h : applyOp g op = some g') : goodGraph g' := by
  cases op with
  | create nid isNop isTask tid =>
    injection h with h
    rw [← h]
    exact goodGraph_create g nid isNop isTask tid hg
  | addDep a b anti => exact goodGraph_addDep g g' a b anti hg h
  | removeDep a b => cases hop

theorem foldl_goodGraph :
    ∀ (ops : List GraphOp) (g0 g : CommandGraph), goodGraph g0 →
      (∀ op ∈ ops, op.isRemoveDep = false) →
      List.foldlM applyOp g0 ops = some g → goodGraph g := by
  intro ops
  induction ops with
  | nil =>
    intro g0 g hg0 _ h
    injection h with h
    rw [← h]
    exact hg0
  | cons op rest ih =>
    intro g0 g hg0 hops h
    rw [List.foldlM_cons] at h
    match happ : applyOp g0 op with
    | none => rw [happ] at h; cases h
    | some g1 =>
      rw [happ] at h
      exact ih g1 g
        (goodGraph_applyOp g0 g1 op hg0 (hops op (List.mem_cons_self op rest)) happ)
        (fun o ho => hops o (List.mem_cons_of_mem op ho)) h

/-- C4 (amended): after any sequence of `create` and `add_dependency`
operations (no `remove_dependency`) that runs without an assertion failure,
`execution_fronts[n]` equals exactly the set of NON-NOP commands on node `n`
with no dependents.  The original claim fails in two ways the code exhibits:
`remove_dependency` does not re-insert a dependee whose last dependent edge
was removed, and `nop` commands are never in the front even with no
dependents. -/
theorem execution_front_eq_no_dependents (ops : List GraphOp) (g : CommandGraph)
    (hops : ∀ op ∈ ops, op.isRemoveDep = false)
    (hrun : runOps ops = some g) :
    ∀ nid cid, cid ∈ frontGet g.execution_fronts nid ↔
      ((∃ c, c ∈ g.commands ∧ c.cid = cid ∧ c.nid = nid ∧ c.isNop = false) ∧
        ¬ hasDependent g cid) :=
  (foldl_goodGraph ops emptyGraph g goodGraph_empty hops hrun).2.2.2.2

/-- The operation sequence of the C4 counterexample: a nop on node 0 (cid 0),
two plain commands on node 0 (cids 1, 2), a dependency 2 → 1, then its
removal. -/
def brokenFrontOps : List GraphOp :=
  [GraphOp.create 0 true false 0, GraphOp.create 0 false false 0,
   GraphOp.create 0 false false 0, GraphOp.addDep 2 1 false, GraphOp.removeDep 2 1]

/-- C4 counterexample: after `brokenFrontOps` the graph holds command 1 on
node 0 (not a nop) with no dependents — `remove_dependency 2 1` deleted its
only dependent edge — yet `execution_fronts[0]` does not contain it; the
original claim's equality fails. -/
theorem execution_front_counterexample :
    ∃ g, runOps brokenFrontOps = some g ∧
      (∃ c, c ∈ g.commands ∧ c.cid = 1 ∧ c.nid = 0 ∧ c.isNop = false) ∧
      ¬ hasDependent g 1 ∧
      1 ∉ frontGet g.execution_fronts 0 := by
  refine ⟨(runOps brokenFrontOps).getD emptyGraph, ?_, ?_, ?_, ?_⟩
  · decide
  · decide
  · decide
  · decide

/-- C4 witness for the amended theorem: two creates on node 0 (a nop and a
plain command) and one dependency-free graph; the front of node 0 holds cid 1
(the non-nop command with no dependents) by the theorem. -/
theorem execution_front_eq_no_dependents_witness :
    1 ∈ frontGet (((runOps [GraphOp.create 0 true false 0,
        GraphOp.create 0 false false 0]).getD emptyGraph).execution_fronts) 0 ↔
      ((∃ c, c ∈ ((runOps [GraphOp.create 0 true false 0,
          GraphOp.create 0 false false 0]).getD emptyGraph).commands ∧
          c.cid = 1 ∧ c.nid = 0 ∧ c.isNop = false) ∧
        ¬ hasDependent ((runOps [GraphOp.create 0 true false 0,
          GraphOp.create 0 false false 0]).getD emptyGraph) 1) :=
  execution_front_eq_no_dependents
    [GraphOp.create 0 true false 0, GraphOp.create 0 false false 0]
    ((runOps [GraphOp.create 0 true false 0,
      GraphOp.create 0 false false 0]).getD emptyGraph)
    (by decide) (by decide) 0 1

/-- The invariant backing claim C5: every recorded dependency edge joins two
distinct commands on the same node. -/
def edgeInv (g : CommandGraph) : Prop :=
  ∀ d ∈ g.deps, d.1 ≠ d.2.1 ∧ ∃ ca cb, ca ∈ g.commands ∧ cb ∈ g.commands ∧
    ca.cid = d.1 ∧ cb.cid = d.2.1 ∧ ca.nid = cb.nid

/-- Well-formedness preserved by all three operations (including
`remove_dependency`). -/
def edgeGood (g : CommandGraph) : Prop :=
  (∀ c ∈ g.commands, c.cid < g.next_cmd_id) ∧
  (g.commands.map (fun c => c.cid)).Nodup ∧
  edgeInv g

theorem edgeGood_empty : edgeGood emptyGraph := by
  refine ⟨?_, List.nodup_nil, ?_⟩
  · intro c hc; cases hc
  · intro d hd; cases hd

theorem edgeGood_applyOp (g g' : CommandGraph) (op : GraphOp) (hg : edgeGood g)
    (h : applyOp g op = some g') : edgeGood g' := by
  obtain ⟨hbound, hnodup, hedge⟩ := hg
  cases op with
  | create nid isNop isTask tid =>
    injection h with h
    rw [← h]
    refine ⟨?_, ?_, ?_⟩
    · intro c hc
      rcases List.mem_append.mp hc with h1 | h1
      · exact Nat.lt_succ_of_lt (hbound c h1)
      · simp only [List.mem_singleton] at h1
        rw [h1]
        exact Nat.lt_succ_self _
    · show (List.map (fun c => c.cid) (g.commands ++ [{ cid := g.next_cmd_id, nid := nid, isNop := isNop, isTask := isTask, tid := tid, pcpl := 0 }])).Nodup
      rw [List.map_append]
      apply List.Nodup.append hnodup (by simp)
      intro x hx hy
      simp only [List.map_cons, List.map_nil, List.mem_singleton] at hy
      rcases List.mem_map.mp hx with ⟨c, hc, hceq⟩
      rw [hy] at hceq
      exact Nat.ne_of_lt (hbound c hc) hceq
    · intro d hd
      obtain ⟨hne, ca, cb, hca, hcb, e1, e2, e3⟩ := hedge d hd
      exact ⟨hne, ca, cb, List.mem_append.mpr (Or.inl hca),
        List.mem_append.mpr (Or.inl hcb), e1, e2, e3⟩
  | addDep a b anti =>
    replace h : g.add_dependency a b anti = some g' := h
    match hda : findCmd g a, hdb : findCmd g b with
    | none, _ =>
      have hval : g.add_dependency a b anti = none := by
        unfold CommandGraph.add_dependency
        rw [hda]
      rw [hval] at h
      cases h
    | some d, none =>
      have hval : g.add_dependency a b anti = none := by
        unfold CommandGraph.add_dependency
        rw [hda, hdb]
      rw [hval] at h
      cases h
    | some d, some e =>
      have hval : g.add_dependency a b anti =
          (if d.nid = e.nid ∧ a ≠ b then
            some { next_cmd_id := g.next_cmd_id,
                   commands := g.commands.map
                     (fun c => if c.cid = a then { d with pcpl := max d.pcpl (e.pcpl + 1) } else c),
                   deps := g.deps ++ [(a, b, anti)],
                   by_task := g.by_task,
                   execution_fronts := frontErase g.execution_fronts d.nid b,
                   max_pcpl := max g.max_pcpl (max d.pcpl (e.pcpl + 1)) }
          else none) := by
        unfold CommandGraph.add_dependency
        rw [hda, hdb]
      rw [hval] at h
      by_cases hguard : d.nid = e.nid ∧ a ≠ b
      case neg => rw [if_neg hguard] at h; cases h
      case pos =>
        rw [if_pos hguard] at h
        injection h with h
        subst h
        obtain ⟨hd_mem, hd_cid⟩ := findCmd_spec g a d hda
        obtain ⟨he_mem, he_cid⟩ := findCmd_spec g b e hdb
        have hinj := List.inj_on_of_nodup_map hnodup
        set d2 : Cmd := { d with pcpl := max d.pcpl (e.pcpl + 1) } with hd2
        set f : Cmd → Cmd := fun c => if c.cid = a then d2 else c with hf
        have hfc : ∀ c ∈ g.commands,
            (f c).cid = c.cid ∧ (f c).nid = c.nid := by
          intro c hc
          by_cases hca : c.cid = a
          · have hcd : c = d := hinj hc hd_mem (by simp only [hca, hd_cid])
            subst hcd
            simp [hf, hca, hd2]
          · simp [hf, hca]
        refine ⟨?_, ?_, ?_⟩
        · intro c hc
          rcases List.mem_map.mp hc with ⟨c0, hc0, hceq⟩
          rw [← hceq, (hfc c0 hc0).1]
          exact hbound c0 hc0
        · have hsame : (g.commands.map f).map (fun c => c.cid) =
              g.commands.map (fun c => c.cid) := by
            rw [List.map_map]
            apply List.map_congr_left
            intro c hc
            exact (hfc c hc).1
          rw [hsame]
          exact hnodup
        · intro dp hdp
          rcases List.mem_append.mp hdp with h1 | h1
          · obtain ⟨hne, ca, cb, hca, hcb, e1, e2, e3⟩ := hedge dp h1
            refine ⟨hne, f ca, f cb, List.mem_map_of_mem f hca,
              List.mem_map_of_mem f hcb, ?_, ?_, ?_⟩
            · rw [(hfc ca hca).1]; exact e1
            · rw [(hfc cb hcb).1]; exact e2
            · rw [(hfc ca hca).2, (hfc cb hcb).2]; exact e3
          · simp only [List.mem_singleton] at h1
            subst h1
            refine ⟨hguard.2, f d, f e, List.mem_map_of_mem f hd_mem,
              List.mem_map_of_mem f he_mem, ?_, ?_, ?_⟩
            · rw [(hfc d hd_mem).1]; exact hd_cid
            · rw [(hfc e he_mem).1]; exact he_cid
            · rw [(hfc d hd_mem).2, (hfc e he_mem).2]; exact hguard.1
  | removeDep a b =>
    injection h with h
    rw [← h]
    refine ⟨hbound, hnodup, ?_⟩
    intro d hd
    exact hedge d (List.mem_of_mem_filter hd)

theorem foldl_edgeGood :
    ∀ (ops : List GraphOp) (g0 g : CommandGraph), edgeGood g0 →
      List.foldlM applyOp g0 ops = some g → edgeGood g := by
  intro ops
  induction ops with
  | nil =>
    intro g0 g hg0 h
    injection h with h
    rw [← h]
    exact hg0
  | cons op rest ih =>
    intro g0 g hg0 h
    rw [List.foldlM_cons] at h
    match happ : applyOp g0 op with
    | none => rw [happ] at h; cases h
    | some g1 =>
      rw [happ] at h
      exact ih g1 g (edgeGood_applyOp g0 g1 op hg0 happ) h

/-- C5: in every command graph produced by a sequence of operations, every
dependency edge joins two distinct commands on the same node; and
`add_dependency` with a depender and dependee on different nodes, or with
depender equal to dependee, fails its assertion (modelled as `none`). -/
theorem dependency_edges_same_node :
    (∀ (ops : List GraphOp) (g : CommandGraph), runOps ops = some g →
      ∀ d ∈ g.deps, d.1 ≠ d.2.1 ∧ ∃ ca cb, ca ∈ g.commands ∧ cb ∈ g.commands ∧
        ca.cid = d.1 ∧ cb.cid = d.2.1 ∧ ca.nid = cb.nid) ∧
    (∀ (g : CommandGraph) (a b : Nat) (anti : Bool) (ca cb : Cmd),
      findCmd g a = some ca → findCmd g b = some cb →
      (ca.nid ≠ cb.nid ∨ a = b) → g.add_dependency a b anti = none) := by
  constructor
  · intro ops g hrun
    exact (foldl_edgeGood ops emptyGraph g edgeGood_empty hrun).2.2
  · intro g a b anti ca cb hca hcb hbad
    have hval : g.add_dependency a b anti =
        (if ca.nid = cb.nid ∧ a ≠ b then
          some { next_cmd_id := g.next_cmd_id,
                 commands := g.commands.map
                   (fun c => if c.cid = a then { ca with pcpl := max ca.pcpl (cb.pcpl + 1) } else c),
                 deps := g.deps ++ [(a, b, anti)],
                 by_task := g.by_task,
                 execution_fronts := frontErase g.execution_fronts ca.nid b,
                 max_pcpl := max g.max_pcpl (max ca.pcpl (cb.pcpl + 1)) }
        else none) := by
      unfold CommandGraph.add_dependency
      rw [hca, hcb]
    rw [hval, if_neg]
    rintro ⟨h1, h2⟩
    rcases hbad with hb | hb
    · exact hb h1
    · exact h2 hb

/-- C5 witness: a graph with command 0 on node 0 and command 1 on node 1;
its (empty) edge set satisfies the invariant, and adding a cross-node
dependency 0 → 1 fails the assertion. -/
theorem dependency_edges_same_node_witness :
    (∀ d ∈ ((runOps [GraphOp.create 0 false false 0,
        GraphOp.create 1 false false 0]).getD emptyGraph).deps,
      d.1 ≠ d.2.1 ∧ ∃ ca cb,
        ca ∈ ((runOps [GraphOp.create 0 false false 0,
          GraphOp.create 1 false false 0]).getD emptyGraph).commands ∧
        cb ∈ ((runOps [GraphOp.create 0 false false 0,
          GraphOp.create 1 false false 0]).getD emptyGraph).commands ∧
        ca.cid = d.1 ∧ cb.cid = d.2.1 ∧ ca.nid = cb.nid) ∧
    ((runOps [GraphOp.create 0 false false 0,
      GraphOp.create 1 false false 0]).getD emptyGraph).add_dependency 0 1 false = none :=
  ⟨dependency_edges_same_node.1
      [GraphOp.create 0 false false 0, GraphOp.create 1 false false 0]
      ((runOps [GraphOp.create 0 false false 0,
        GraphOp.create 1 false false 0]).getD emptyGraph) (by decide),
    dependency_edges_same_node.2
      ((runOps [GraphOp.create 0 false false 0,
        GraphOp.create 1 false false 0]).getD emptyGraph) 0 1 false
      { cid := 0, nid := 0, isNop := false, isTask := false, tid := 0, pcpl := 0 }
      { cid := 1, nid := 1, isNop := false, isTask := false, tid := 0, pcpl := 0 }
      (by decide) (by decide) (Or.inl (by decide))⟩

/-! ## buffer_transfer_manager (src/unnamed/part_000)

`transfer_handle`s are shared (`shared_ptr`): modelled by ids into a handle
heap.  `write_data_to_buffer` forwards to `runtime::set_buffer_data`; the
buffer-storage driver is external, so its effect is modelled as an append to a
write log `buffer_writes` of `(bid, subrange, bytes)` records.  The state of
an MPI receive request is the flag `requestDone` (what `MPI_Test` reports
during `update_incoming_transfers`). -/

/-- A 3-D `(offset, range)` pair as carried in transfer headers. -/
structure TransferSubrange where
  offset0 : Nat
  offset1 : Nat
  offset2 : Nat
  range0 : Nat
  range1 : Nat
  range2 : Nat
deriving DecidableEq, Repr

/-- `data_header`: `{subrange, bid, push_cid}`. -/
structure DataHeader where
  bid : Nat
  sr : TransferSubrange
  push_cid : Nat
deriving DecidableEq, Repr

/-- `transfer_in`: header, received bytes and the receive-request state. -/
structure TransferIn where
  header : DataHeader
  data : List Nat
  requestDone : Bool
deriving DecidableEq, Repr

/-- `incoming_transfer_handle`: `{complete, transfer}` (the `transfer` field
becomes `none` when its `unique_ptr` is moved into buffer storage). -/
structure IncomingHandle where
  complete : Bool
  transfer : Option TransferIn
deriving DecidableEq, Repr

/-- `await_push_data`: `{bid, subrange, source_cid}`. -/
structure AwaitPushData where
  bid : Nat
  sr : TransferSubrange
  source_cid : Nat
deriving DecidableEq, Repr

/-- The state of the `buffer_transfer_manager` relevant to incoming pushes:
the blackboard (`push_blackboard : push_cid → handle`), the handle heap, the
list of in-flight incoming transfers and the log of writes handed to buffer
storage. -/
structure BTMState where
  push_blackboard : List (Nat × Nat)
  handles : List (Nat × IncomingHandle)
  next_handle : Nat
  incoming_transfers : List TransferIn
  buffer_writes : List (Nat × TransferSubrange × List Nat)
deriving DecidableEq, Repr

/-- `write_data_to_buffer` (part_000 130-135): hand the received bytes for the
header's buffer subrange to `runtime::set_buffer_data`. -/
def write_data_to_buffer (writes : List (Nat × TransferSubrange × List Nat))
    (t : TransferIn) : List (Nat × TransferSubrange × List Nat) :=
  writes ++ [(t.header.bid, t.header.sr, t.data)]

/-- `buffer_transfer_manager::await_push` (part_000 65-85).  If the blackboard
already holds the matching transfer, erase the entry, check the asserts
(`transfer != nullptr`, matching `bid` and `subrange`) and write the data to
buffer storage (moving the transfer out of the handle); otherwise park a
fresh handle on the blackboard.  Returns the updated state and the handle
given to the caller; `none` models a failing assert. -/
def await_push (s : BTMState) (d : AwaitPushData) : Option (BTMState × Nat) :=
  match alookup s.push_blackboard d.source_cid with
  | some h =>
    match alookup s.handles h with
    | some hd =>
      match hd.transfer with
      | none => none  -- assert(t_handle->transfer != nullptr)
      | some t =>
        if t.header.bid = d.bid ∧ t.header.sr = d.sr then
          some ({ s with
            push_blackboard := s.push_blackboard.filter (fun p => ¬ p.1 = d.source_cid),
            handles := aset s.handles h { hd with transfer := none },
            buffer_writes := write_data_to_buffer s.buffer_writes t }, h)
        else none  -- assert(bid == data.bid); assert(subrange == data.subrange)
    | none => none  -- dangling handle id: unreachable through this interface
  | none =>
    some ({ s with
      handles := s.handles ++ [(s.next_handle, { complete := false, transfer := none })],
      push_blackboard := s.push_blackboard ++ [(d.source_cid, s.next_handle)],
      next_handle := s.next_handle + 1 }, s.next_handle)

/-- The per-transfer body of `update_incoming_transfers` (part_000 97-110),
run when `MPI_Test` reports the receive complete: rendezvous with a waiting
`await_push` via the blackboard (write to buffer storage and mark the waiter
complete), or park the received transfer on the blackboard under a fresh
handle marked complete. -/
def processIncoming (s : BTMState) (t : TransferIn) : BTMState :=
  match alookup s.push_blackboard t.header.push_cid with
  | some h =>
    match alookup s.handles h with
    | some hd =>
      { s with
        push_blackboard := s.push_blackboard.filter (fun p => ¬ p.1 = t.header.push_cid),
        buffer_writes := write_data_to_buffer s.buffer_writes t,
        handles := aset s.handles h { hd with complete := true } }
    | none => s  -- dangling handle id: unreachable through this interface
  | none =>
    { s with
      handles := s.handles ++ [(s.next_handle, { complete := true, transfer := some t })],
      push_blackboard := s.push_blackboard ++ [(t.header.push_cid, s.next_handle)],
      next_handle := s.next_handle + 1 }

/-- The loop of `update_incoming_transfers` (part_000 87-112): test every
in-flight incoming transfer; completed ones are processed and erased from the
list, pending ones are kept. -/
def updateIncomingGo : BTMState → List TransferIn → List TransferIn → BTMState
  | s, [], kept => { s with incoming_transfers := kept }
  | s, t :: rest, kept =>
    if t.requestDone then updateIncomingGo (processIncoming s t) rest kept
    else updateIncomingGo s rest (kept ++ [t])

/-- `buffer_transfer_manager::update_incoming_transfers` (part_000 87-112). -/
def update_incoming_transfers (s : BTMState) : BTMState :=
  updateIncomingGo { s with incoming_transfers := [] } s.incoming_transfers []

theorem alookup_none_forall {β : Type} (k : Nat) :
    ∀ l : List (Nat × β), alookup l k = none → ∀ p ∈ l, p.1 ≠ k := by
  intro l
  induction l with
  | nil => intro _ p hp; cases hp
  | cons a rest ih =>
    rcases a with ⟨ak, av⟩
    intro h p hp
    simp only [alookup] at h
    by_cases ha : ak = k
    · rw [if_pos ha] at h; cases h
    · rw [if_neg ha] at h
      rcases List.mem_cons.mp hp with h1 | h1
      · rw [h1]; exact ha
      · exact ih h p h1

theorem alookup_append_single_same {β : Type} (k : Nat) (v : β) (l : List (Nat × β))
    (h : alookup l k = none) : alookup (l ++ [(k, v)]) k = some v := by
  rw [alookup_append_right k _ l h]
  simp [alookup]

theorem filter_key_eq_self {β : Type} (k : Nat) :
    ∀ l : List (Nat × β), (∀ p ∈ l, p.1 ≠ k) →
      l.filter (fun p => ¬ p.1 = k) = l := by
  intro l
  induction l with
  | nil => intro _; rfl
  | cons a rest ih =>
    intro h
    have ha := h a (List.mem_cons_self a rest)
    simp only [List.filter_cons]
    rw [if_pos (by simpa using ha)]
    rw [ih (fun p hp => h p (List.mem_cons_of_mem a hp))]

theorem filter_key_append {β : Type} (k : Nat) (v : β) (l : List (Nat × β))
    (h : ∀ p ∈ l, p.1 ≠ k) :
    (l ++ [(k, v)]).filter (fun p => ¬ p.1 = k) = l := by
  rw [List.filter_append, filter_key_eq_self k l h]
  simp

theorem aset_append_fresh {β : Type} (k : Nat) (x v : β) (l : List (Nat × β))
    (h : ∀ p ∈ l, p.1 ≠ k) : aset (l ++ [(k, x)]) k v = l ++ [(k, v)] := by
  unfold aset
  rw [if_pos (by simp)]
  rw [List.map_append]
  congr 1
  · have hid : ∀ p ∈ l, (if p.1 = k then (k, v) else p) = p := fun p hp => if_neg (h p hp)
    calc l.map (fun p => if p.1 = k then (k, v) else p)
        = l.map (fun p => p) := List.map_congr_left hid
      _ = l := List.map_id' l
  · simp

/-- `await_push` with no blackboard entry for the push (part_000 78-82): park
a fresh handle. -/
theorem await_push_miss (s : BTMState) (pkg : AwaitPushData)
    (hbb : alookup s.push_blackboard pkg.source_cid = none) :
    await_push s pkg = some ({ s with
      handles := s.handles ++ [(s.next_handle, { complete := false, transfer := none })],
      push_blackboard := s.push_blackboard ++ [(pkg.source_cid, s.next_handle)],
      next_handle := s.next_handle + 1 }, s.next_handle) := by
  unfold await_push
  rw [hbb]

/-- `await_push` with a fully received transfer parked on the blackboard
(part_000 71-77): erase the entry, write the data to buffer storage, return
the (complete) handle with the transfer moved out. -/
theorem await_push_hit (s : BTMState) (pkg : AwaitPushData) (h : Nat)
    (hd : IncomingHandle) (t : TransferIn)
    (hbb : alookup s.push_blackboard pkg.source_cid = some h)
    (hh : alookup s.handles h = some hd)
    (ht : hd.transfer = some t)
    (hbid : t.header.bid = pkg.bid) (hsr : t.header.sr = pkg.sr) :
    await_push s pkg = some ({ s with
      push_blackboard := s.push_blackboard.filter (fun p => ¬ p.1 = pkg.source_cid),
      handles := aset s.handles h { hd with transfer := none },
      buffer_writes := write_data_to_buffer s.buffer_writes t }, h) := by
  unfold await_push
  simp only [hbb, hh, ht]
  rw [if_pos ⟨hbid, hsr⟩]

/-- `update_incoming_transfers` with a single completed incoming transfer
(part_000 87-112). -/
theorem update_incoming_single (s : BTMState) (t : TransferIn)
    (hinc : s.incoming_transfers = [t]) (hdone : t.requestDone = true) :
    update_incoming_transfers s =
      { processIncoming { s with incoming_transfers := [] } t with
        incoming_transfers := [] } := by
  unfold update_incoming_transfers
  rw [hinc]
  show updateIncomingGo { s with incoming_transfers := [] } [t] [] = _
  simp only [updateIncomingGo]
  rw [if_pos hdone]

/-- The incoming-transfer body when an `await_push` waiter is parked
(part_000 99-102, 109): write the data, erase the entry, mark the waiter
complete. -/
theorem processIncoming_hit (s : BTMState) (t : TransferIn) (h : Nat)
    (hd : IncomingHandle)
    (hbb : alookup s.push_blackboard t.header.push_cid = some h)
    (hh : alookup s.handles h = some hd) :
    processIncoming s t = { s with
      push_blackboard := s.push_blackboard.filter (fun p => ¬ p.1 = t.header.push_cid),
      buffer_writes := write_data_to_buffer s.buffer_writes t,
      handles := aset s.handles h { hd with complete := true } } := by
  unfold processIncoming
  simp only [hbb, hh]

/-- The incoming-transfer body with no waiter (part_000 103-107, 109): park
the received transfer under a fresh complete handle. -/
theorem processIncoming_miss (s : BTMState) (t : TransferIn)
    (hbb : alookup s.push_blackboard t.header.push_cid = none) :
    processIncoming s t = { s with
      handles := s.handles ++ [(s.next_handle, { complete := true, transfer := some t })],
      push_blackboard := s.push_blackboard ++ [(t.header.push_cid, s.next_handle)],
      next_handle := s.next_handle + 1 } := by
  unfold processIncoming
  rw [hbb]

/-- Evaluation of the order "await_push posted first, data arrives second".
`B`, `H`, `nh`, `W` are the manager's blackboard, handle heap, next handle id
and write log; the single in-flight transfer `t` matches `pkg`. -/
theorem await_then_arrival_eval (B : List (Nat × Nat)) (H : List (Nat × IncomingHandle))
    (nh : Nat) (W : List (Nat × TransferSubrange × List Nat))
    (pkg : AwaitPushData) (t : TransferIn)
    (hbb : alookup B pkg.source_cid = none)
    (hh : alookup H nh = none)
    (hcid : t.header.push_cid = pkg.source_cid)
    (hdone : t.requestDone = true) :
    await_push (⟨B, H, nh, [t], W⟩ : BTMState) pkg =
      some (⟨B ++ [(pkg.source_cid, nh)],
        H ++ [(nh, { complete := false, transfer := none })], nh + 1, [t], W⟩, nh) ∧
    update_incoming_transfers ⟨B ++ [(pkg.source_cid, nh)],
        H ++ [(nh, { complete := false, transfer := none })], nh + 1, [t], W⟩ =
      ⟨B, H ++ [(nh, { complete := true, transfer := none })], nh + 1, [],
        W ++ [(t.header.bid, t.header.sr, t.data)]⟩ := by
  constructor
  · exact await_push_miss ⟨B, H, nh, [t], W⟩ pkg hbb
  · have hbb1 : alookup ((⟨B ++ [(pkg.source_cid, nh)],
        H ++ [(nh, { complete := false, transfer := none })], nh + 1, [],
        W⟩ : BTMState)).push_blackboard t.header.push_cid = some nh := by
      show alookup (B ++ [(pkg.source_cid, nh)]) t.header.push_cid = some nh
      rw [hcid]
      exact alookup_append_single_same _ _ _ hbb
    have hh1 : alookup ((⟨B ++ [(pkg.source_cid, nh)],
        H ++ [(nh, { complete := false, transfer := none })], nh + 1, [],
        W⟩ : BTMState)).handles nh = some { complete := false, transfer := none } := by
      show alookup (H ++ [(nh, { complete := false, transfer := none })]) nh = some _
      exact alookup_append_single_same _ _ _ hh
    have h2 := update_incoming_single ⟨B ++ [(pkg.source_cid, nh)],
      H ++ [(nh, { complete := false, transfer := none })], nh + 1, [t], W⟩ t rfl hdone
    have h3 := processIncoming_hit ⟨B ++ [(pkg.source_cid, nh)],
      H ++ [(nh, { complete := false, transfer := none })], nh + 1, [], W⟩ t nh
      { complete := false, transfer := none } hbb1 hh1
    rw [h2]
    have e1 : (B ++ [(pkg.source_cid, nh)]).filter
        (fun p => ¬ p.1 = t.header.push_cid) = B := by
      rw [hcid]
      exact filter_key_append _ _ _ (alookup_none_forall _ _ hbb)
    have e2 : aset (H ++ [(nh, { complete := false, transfer := none })]) nh
        { complete := true, transfer := none } =
        H ++ [(nh, { complete := true, transfer := none })] :=
      aset_append_fresh _ _ _ _ (alookup_none_forall _ _ hh)
    rw [h3]
    show (⟨(B ++ [(pkg.source_cid, nh)]).filter (fun p => ¬ p.1 = t.header.push_cid),
      aset (H ++ [(nh, { complete := false, transfer := none })]) nh
        { complete := true, transfer := none },
      nh + 1, [], W ++ [(t.header.bid, t.header.sr, t.data)]⟩ : BTMState) = _
    rw [e1, e2]

/-- Evaluation of the order "data arrives first, await_push posted second". -/
theorem arrival_then_await_eval (B : List (Nat × Nat)) (H : List (Nat × IncomingHandle))
    (nh : Nat) (W : List (Nat × TransferSubrange × List Nat))
    (pkg : AwaitPushData) (t : TransferIn)
    (hbb : alookup B pkg.source_cid = none)
    (hh : alookup H nh = none)
    (hcid : t.header.push_cid = pkg.source_cid)
    (hbid : t.header.bid = pkg.bid) (hsr : t.header.sr = pkg.sr)
    (hdone : t.requestDone = true) :
    update_incoming_transfers (⟨B, H, nh, [t], W⟩ : BTMState) =
      ⟨B ++ [(pkg.source_cid, nh)],
        H ++ [(nh, { complete := true, transfer := some t })], nh + 1, [], W⟩ ∧
    await_push (⟨B ++ [(pkg.source_cid, nh)],
        H ++ [(nh, { complete := true, transfer := some t })], nh + 1, [],
        W⟩ : BTMState) pkg =
      some (⟨B, H ++ [(nh, { complete := true, transfer := none })], nh + 1, [],
        W ++ [(t.header.bid, t.header.sr, t.data)]⟩, nh) := by
  constructor
  · have h2 := update_incoming_single ⟨B, H, nh, [t], W⟩ t rfl hdone
    have hbb0 : alookup ((⟨B, H, nh, [], W⟩ : BTMState)).push_blackboard
        t.header.push_cid = none := by
      show alookup B t.header.push_cid = none
      rw [hcid]
      exact hbb
    have h3 := processIncoming_miss ⟨B, H, nh, [], W⟩ t hbb0
    rw [h2, h3]
    show (⟨B ++ [(t.header.push_cid, nh)],
      H ++ [(nh, { complete := true, transfer := some t })], nh + 1, [],
      W⟩ : BTMState) = _
    rw [hcid]
  · have hbb2 : alookup ((⟨B ++ [(pkg.source_cid, nh)],
        H ++ [(nh, { complete := true, transfer := some t })], nh + 1, [],
        W⟩ : BTMState)).push_blackboard pkg.source_cid = some nh := by
      show alookup (B ++ [(pkg.source_cid, nh)]) pkg.source_cid = some nh
      exact alookup_append_single_same _ _ _ hbb
    have hh2 : alookup ((⟨B ++ [(pkg.source_cid, nh)],
        H ++ [(nh, { complete := true, transfer := some t })], nh + 1, [],
        W⟩ : BTMState)).handles nh = some { complete := true, transfer := some t } := by
      show alookup (H ++ [(nh, { complete := true, transfer := some t })]) nh = some _
      exact alookup_append_single_same _ _ _ hh
    have h5 := await_push_hit ⟨B ++ [(pkg.source_cid, nh)],
      H ++ [(nh, { complete := true, transfer := some t })], nh + 1, [], W⟩ pkg nh
      { complete := true, transfer := some t } t hbb2 hh2 rfl hbid hsr
    rw [h5]
    have e1 : (B ++ [(pkg.source_cid, nh)]).filter
        (fun p => ¬ p.1 = pkg.source_cid) = B :=
      filter_key_append _ _ _ (alookup_none_forall _ _ hbb)
    have e2 : aset (H ++ [(nh, { complete := true, transfer := some t })]) nh
        { complete := true, transfer := none } =
        H ++ [(nh, { complete := true, transfer := none })] :=
      aset_append_fresh _ _ _ _ (alookup_none_forall _ _ hh)
    show some ((⟨(B ++ [(pkg.source_cid, nh)]).filter (fun p => ¬ p.1 = pkg.source_cid),
      aset (H ++ [(nh, { complete := true, transfer := some t })]) nh
        { complete := true, transfer := none },
      nh + 1, [], W ++ [(t.header.bid, t.header.sr, t.data)]⟩ : BTMState), nh) = _
    rw [e1, e2]

/-- C3: for a push matched by `push_cid`, posting the `await_push` and
completing the incoming data transfer commute: in either order the final
manager state is the same — the received bytes are handed to buffer storage,
the blackboard entry for the push_cid is gone, and the handle returned to the
`await_push` caller is marked complete (with the transfer moved out). -/
theorem await_push_commutes_with_arrival (B : List (Nat × Nat))
    (H : List (Nat × IncomingHandle)) (nh : Nat)
    (W : List (Nat × TransferSubrange × List Nat))
    (pkg : AwaitPushData) (t : TransferIn)
    (hbb : alookup B pkg.source_cid = none)
    (hh : alookup H nh = none)
    (hcid : t.header.push_cid = pkg.source_cid)
    (hbid : t.header.bid = pkg.bid) (hsr : t.header.sr = pkg.sr)
    (hdone : t.requestDone = true) :
    ∃ sfin : BTMState,
      (await_push (⟨B, H, nh, [t], W⟩ : BTMState) pkg).map
          (fun p => (update_incoming_transfers p.1, p.2)) = some (sfin, nh) ∧
      await_push (update_incoming_transfers (⟨B, H, nh, [t], W⟩ : BTMState)) pkg =
          some (sfin, nh) ∧
      sfin.buffer_writes = W ++ [(t.header.bid, t.header.sr, t.data)] ∧
      alookup sfin.push_blackboard pkg.source_cid = none ∧
      alookup sfin.handles nh = some { complete := true, transfer := none } := by
  obtain ⟨hA1, hA2⟩ := await_then_arrival_eval B H nh W pkg t hbb hh hcid hdone
  obtain ⟨hB1, hB2⟩ := arrival_then_await_eval B H nh W pkg t hbb hh hcid hbid hsr hdone
  refine ⟨⟨B, H ++ [(nh, { complete := true, transfer := none })], nh + 1, [],
    W ++ [(t.header.bid, t.header.sr, t.data)]⟩, ?_, ?_, rfl, ?_, ?_⟩
  · rw [hA1, Option.map_some', hA2]
  · rw [hB1, hB2]
  · exact hbb
  · exact alookup_append_single_same _ _ _ hh

/-- A concrete transfer subrange used by the witnesses. -/
def exSr : TransferSubrange :=
  { offset0 := 0, offset1 := 0, offset2 := 0, range0 := 2, range1 := 1, range2 := 1 }

/-- A concrete completed incoming transfer (push_cid 42, bytes [7, 8]). -/
def exTransfer : TransferIn :=
  { header := { bid := 1, sr := exSr, push_cid := 42 }, data := [7, 8],
    requestDone := true }

/-- The matching await_push package. -/
def exAwaitPkg : AwaitPushData := { bid := 1, sr := exSr, source_cid := 42 }

/-- C3 witness: the commutation theorem applied at a concrete state (empty
manager, one matching in-flight transfer carrying bytes [7, 8]). -/
theorem await_push_commutes_with_arrival_witness :
    ∃ sfin : BTMState,
      (await_push (⟨[], [], 0, [exTransfer], []⟩ : BTMState) exAwaitPkg).map
          (fun p => (update_incoming_transfers p.1, p.2)) = some (sfin, 0) ∧
      await_push (update_incoming_transfers (⟨[], [], 0, [exTransfer], []⟩ : BTMState))
          exAwaitPkg = some (sfin, 0) ∧
      sfin.buffer_writes =
        [] ++ [(exTransfer.header.bid, exTransfer.header.sr, exTransfer.data)] ∧
      alookup sfin.push_blackboard 42 = none ∧
      alookup sfin.handles 0 = some { complete := true, transfer := none } :=
  await_push_commutes_with_arrival [] [] 0 [] exAwaitPkg exTransfer
    rfl rfl rfl rfl rfl rfl

/-- C9: whichever of "await_push posted" and "matching transfer completes"
happens second erases the blackboard entry for the push_cid (the entry exists
between the first and the second event); the received data is written to
buffer storage exactly once; after both events the blackboard holds no entry
for the push_cid and the handle returned to `await_push` is complete. -/
theorem push_blackboard_lifecycle (B : List (Nat × Nat))
    (H : List (Nat × IncomingHandle)) (nh : Nat)
    (W : List (Nat × TransferSubrange × List Nat))
    (pkg : AwaitPushData) (t : TransferIn)
    (hbb : alookup B pkg.source_cid = none)
    (hh : alookup H nh = none)
    (hcid : t.header.push_cid = pkg.source_cid)
    (hbid : t.header.bid = pkg.bid) (hsr : t.header.sr = pkg.sr)
    (hdone : t.requestDone = true) :
    -- order "await_push first": the entry appears, nothing written yet;
    -- the arrival (second event) erases it and performs the only write
    (∃ s1, await_push (⟨B, H, nh, [t], W⟩ : BTMState) pkg = some (s1, nh) ∧
      alookup s1.push_blackboard pkg.source_cid = some nh ∧
      s1.buffer_writes = W ∧
      alookup (update_incoming_transfers s1).push_blackboard pkg.source_cid = none ∧
      (update_incoming_transfers s1).buffer_writes =
        W ++ [(t.header.bid, t.header.sr, t.data)] ∧
      alookup (update_incoming_transfers s1).handles nh =
        some { complete := true, transfer := none }) ∧
    -- order "arrival first": the entry appears and the transfer is parked
    -- unwritten; the await_push (second event) erases the entry and performs
    -- the single write
    (alookup (update_incoming_transfers (⟨B, H, nh, [t], W⟩ : BTMState)).push_blackboard
        pkg.source_cid = some nh ∧
      (update_incoming_transfers (⟨B, H, nh, [t], W⟩ : BTMState)).buffer_writes = W ∧
      ∃ s2, await_push (update_incoming_transfers (⟨B, H, nh, [t], W⟩ : BTMState)) pkg =
          some (s2, nh) ∧
        alookup s2.push_blackboard pkg.source_cid = none ∧
        s2.buffer_writes = W ++ [(t.header.bid, t.header.sr, t.data)] ∧
        alookup s2.handles nh = some { complete := true, transfer := none }) := by
  obtain ⟨hA1, hA2⟩ := await_then_arrival_eval B H nh W pkg t hbb hh hcid hdone
  obtain ⟨hB1, hB2⟩ := arrival_then_await_eval B H nh W pkg t hbb hh hcid hbid hsr hdone
  constructor
  · refine ⟨_, hA1, ?_, rfl, ?_, ?_, ?_⟩
    · exact alookup_append_single_same _ _ _ hbb
    · rw [hA2]
      exact hbb
    · rw [hA2]
    · rw [hA2]
      exact alookup_append_single_same _ _ _ hh
  · rw [hB1]
    refine ⟨?_, rfl, ?_⟩
    · show alookup (B ++ [(pkg.source_cid, nh)]) pkg.source_cid = some nh
      exact alookup_append_single_same _ _ _ hbb
    · rw [hB2]
      refine ⟨_, rfl, ?_, rfl, ?_⟩
      · exact hbb
      · exact alookup_append_single_same _ _ _ hh

/-- C9 witness: the lifecycle theorem at the same concrete state as the C3
witness, checking the await-push-first order. -/
theorem push_blackboard_lifecycle_witness :
    ∃ s1, await_push (⟨[], [], 0, [exTransfer], []⟩ : BTMState) exAwaitPkg =
        some (s1, 0) ∧
      alookup s1.push_blackboard 42 = some 0 ∧
      s1.buffer_writes = [] ∧
      alookup (update_incoming_transfers s1).push_blackboard 42 = none ∧
      (update_incoming_transfers s1).buffer_writes =
        [] ++ [(exTransfer.header.bid, exTransfer.header.sr, exTransfer.data)] ∧
      alookup (update_incoming_transfers s1).handles 0 =
        some { complete := true, transfer := none } :=
  (push_blackboard_lifecycle [] [] 0 [] exAwaitPkg exTransfer
    rfl rfl rfl rfl rfl rfl).1

/-! ## Dispatch and executor loop (runtime::TEST_do_work, runtime.cc 73-153)

`command_pkg` is `{tid, cid, cmd, data}`; the payload union plays no role in
shutdown counting or loop termination and is omitted.  The BFS walk
`graph_utils::search_vertex_bf` is outside the given sources; modelled from
the spec (§4.5): it visits every command vertex once, in some order — the
embedding processes the vertex list in list order, which fixes one such
order.  Jobs are external (`worker_job` classes): modelled from the spec
(§4.6/§5, jobs are polled by `update()` and report `is_done()`), as a
countdown of remaining `update()` calls. -/

inductive CommandKind where
  | nop
  | compute
  | push
  | await_push
  | master_access
  | shutdown
deriving DecidableEq, Repr

structure CommandPkg where
  tid : Nat
  cid : Nat
  cmd : CommandKind
deriving DecidableEq, Repr

/-- A vertex of the command dag as seen by the dispatch walk: `v_data.tid`,
`v_data.cid`, `v_data.cmd` and `v_data.nid` (runtime.cc 87-99). -/
structure GraphCmd where
  tid : Nat
  cid : Nat
  cmd : CommandKind
  nid : Nat
deriving DecidableEq, Repr

/-- The walk sends of `TEST_do_work` (runtime.cc 87-99): every non-NOP
command with `nid ≠ 0` is sent to its node. -/
def masterSends (cmds : List GraphCmd) : List (Nat × CommandPkg) :=
  (cmds.filter (fun c => ¬ c.cmd = CommandKind.nop ∧ ¬ c.nid = 0)).map
    (fun c => (c.nid, { tid := c.tid, cid := c.cid, cmd := c.cmd }))

/-- The shutdown loop (runtime.cc 101-105): `for(n = 1; n < num_nodes; ++n)`
sends `{0, next_cmd_id++, SHUTDOWN}` to node `n`.  `n` starts at 1,
`remaining = num_nodes - n` counts iterations left, `cid` is the running
`next_cmd_id`. -/
def shutdownSendsGo : Nat → Nat → Nat → List (Nat × CommandPkg)
  | _, 0, _ => []
  | n, Nat.succ r, cid =>
    (n, { tid := 0, cid := cid, cmd := CommandKind.shutdown }) ::
      shutdownSendsGo (n + 1) r (cid + 1)

def shutdownSends (num_nodes next_cmd_id : Nat) : List (Nat × CommandPkg) :=
  shutdownSendsGo 1 (num_nodes - 1) next_cmd_id

/-- The master's local queue (runtime.cc 94-96, 108): non-NOP commands with
`nid = 0` in walk order, then one final SHUTDOWN. -/
def masterLocalQueue (cmds : List GraphCmd) (num_nodes next_cmd_id : Nat) :
    List CommandPkg :=
  (cmds.filter (fun c => ¬ c.cmd = CommandKind.nop ∧ c.nid = 0)).map
    (fun c => { tid := c.tid, cid := c.cid, cmd := c.cmd }) ++
  [{ tid := 0, cid := next_cmd_id + (num_nodes - 1), cmd := CommandKind.shutdown }]

/-- The sequence of command packages worker `n` receives, in send order
(transport delivers reliably in order, spec §7). -/
def workerInbox (cmds : List GraphCmd) (num_nodes next_cmd_id n : Nat) :
    List CommandPkg :=
  ((masterSends cmds ++ shutdownSends num_nodes next_cmd_id).filter
    (fun p => p.1 = n)).map Prod.snd

/-- Executor-loop state (runtime.cc 111-152): the `done` flag, the active job
list (each job as its remaining number of `update()` calls) and the commands
not yet received. -/
structure ExecState where
  done : Bool
  jobs : List Nat
  inbox : List CommandPkg
deriving DecidableEq, Repr

/-- One pass of the job loop (runtime.cc 114-122): `update()` every job, then
erase those that report done. -/
def updateJobs (jobs : List Nat) : List Nat :=
  (jobs.map (fun r => r - 1)).filter (fun r => ¬ r = 0)

/-- One iteration of the executor loop (runtime.cc 111-152).  `none` means
the loop guard `!done || !jobs.empty()` failed and the loop exits.  `avail`
is whether `MPI_Iprobe` reports a pending command this iteration (always true
for the master's local queue); `jobDur` gives the duration of the job a
non-shutdown package spawns.  `btm->poll()` only advances transfer state and
is not part of this fragment. -/
def execStep (jobDur : CommandPkg → Nat) (avail : Bool) (s : ExecState) :
    Option ExecState :=
  if s.done = true ∧ s.jobs = [] then none
  else some (
    let jobs := updateJobs s.jobs
    match s.inbox, avail with
    | pkg :: rest, true =>
      if pkg.cmd = CommandKind.shutdown then { done := true, jobs := jobs, inbox := rest }
      else { done := s.done, jobs := jobs ++ [jobDur pkg], inbox := rest }
    | _, _ => { done := s.done, jobs := jobs, inbox := s.inbox })

theorem filter_none_of_forall {α : Type} (p : α → Bool) :
    ∀ l : List α, (∀ x ∈ l, p x = false) → l.filter p = [] := by
  intro l
  induction l with
  | nil => intro _; rfl
  | cons a rest ih =>
    intro h
    simp only [List.filter_cons]
    rw [if_neg (by rw [h a (List.mem_cons_self a rest)]; exact Bool.false_ne_true)]
    exact ih (fun x hx => h x (List.mem_cons_of_mem a hx))

theorem shutdownSendsGo_keys :
    ∀ (r n cid : Nat) (p : Nat × CommandPkg), p ∈ shutdownSendsGo n r cid → n ≤ p.1 := by
  intro r
  induction r with
  | zero => intro n cid p hp; cases hp
  | succ r ih =>
    intro n cid p hp
    rcases List.mem_cons.mp hp with h1 | h1
    · rw [h1]
    · exact Nat.le_of_succ_le (ih (n + 1) (cid + 1) p h1)

theorem shutdownSendsGo_filter :
    ∀ (r n cid target : Nat), n ≤ target → target < n + r →
      (shutdownSendsGo n r cid).filter (fun p => p.1 = target) =
        [(target, { tid := 0, cid := cid + (target - n), cmd := CommandKind.shutdown })] := by
  intro r
  induction r with
  | zero => intro n cid target h1 h2; omega
  | succ r ih =>
    intro n cid target h1 h2
    by_cases hn : n = target
    · subst hn
      simp only [shutdownSendsGo, List.filter_cons]
      rw [if_pos (by simp)]
      have htail : (shutdownSendsGo (n + 1) r (cid + 1)).filter
          (fun p => p.1 = n) = [] := by
        apply filter_none_of_forall
        intro p hp
        have := shutdownSendsGo_keys r (n + 1) (cid + 1) p hp
        simp only [decide_eq_false_iff_not]
        omega
      rw [htail]
      have : cid + (n - n) = cid := by omega
      rw [this]
    · simp only [shutdownSendsGo, List.filter_cons]
      rw [if_neg (by simpa using hn)]
      have h3 : n + 1 ≤ target := by omega
      have h4 : target < (n + 1) + r := by omega
      rw [ih (n + 1) (cid + 1) target h3 h4]
      have : cid + 1 + (target - (n + 1)) = cid + (target - n) := by omega
      rw [this]

/-- C7: after all task-derived commands are dispatched, every worker node and
the master each receive exactly one SHUTDOWN (provided no graph command is a
SHUTDOWN — the graph only holds compute/push/await_push/master_access/nop);
and the executor loop exits exactly when `done` is set and the job list is
empty — never earlier — where `done` becomes set only by receiving a SHUTDOWN
package. -/
theorem shutdown_once_and_executor_drains (cmds : List GraphCmd)
    (num_nodes next_cmd_id : Nat)
    (hnos : ∀ c ∈ cmds, c.cmd ≠ CommandKind.shutdown) :
    (∀ n, 1 ≤ n → n < num_nodes →
      ((workerInbox cmds num_nodes next_cmd_id n).filter
        (fun pkg => pkg.cmd = CommandKind.shutdown)).length = 1) ∧
    ((masterLocalQueue cmds num_nodes next_cmd_id).filter
      (fun pkg => pkg.cmd = CommandKind.shutdown)).length = 1 ∧
    (∀ (jobDur : CommandPkg → Nat) (avail : Bool) (s : ExecState),
      execStep jobDur avail s = none ↔ (s.done = true ∧ s.jobs = [])) ∧
    (∀ (jobDur : CommandPkg → Nat) (avail : Bool) (s s' : ExecState),
      execStep jobDur avail s = some s' →
      (s'.done = true ↔ (s.done = true ∨ (avail = true ∧
        ∃ pkg rest, s.inbox = pkg :: rest ∧ pkg.cmd = CommandKind.shutdown)))) := by
  refine ⟨?_, ?_, ?_, ?_⟩
  · intro n h1 h2
    unfold workerInbox
    rw [List.filter_append, List.map_append, List.filter_append, List.length_append]
    have hA : (((masterSends cmds).filter (fun p => p.1 = n)).map Prod.snd).filter
        (fun pkg => pkg.cmd = CommandKind.shutdown) = [] := by
      apply filter_none_of_forall
      intro pkg hpkg
      rcases List.mem_map.mp hpkg with ⟨p, hp, hpeq⟩
      have hp2 := List.mem_of_mem_filter hp
      unfold masterSends at hp2
      rcases List.mem_map.mp hp2 with ⟨c, hc, hceq⟩
      have hcmd : pkg.cmd = c.cmd := by
        rw [← hpeq, ← hceq]
      have := hnos c (List.mem_of_mem_filter hc)
      simp only [decide_eq_false_iff_not]
      rw [hcmd]
      exact this
    have hB : (shutdownSends num_nodes next_cmd_id).filter (fun p => p.1 = n) =
        [(n, { tid := 0, cid := next_cmd_id + (n - 1), cmd := CommandKind.shutdown })] := by
      unfold shutdownSends
      exact shutdownSendsGo_filter (num_nodes - 1) 1 next_cmd_id n h1 (by omega)
    rw [hA, hB]
    simp
  · unfold masterLocalQueue
    rw [List.filter_append, List.length_append]
    have hA : ((cmds.filter (fun c => ¬ c.cmd = CommandKind.nop ∧ c.nid = 0)).map
        (fun c => ({ tid := c.tid, cid := c.cid, cmd := c.cmd } : CommandPkg))).filter
        (fun pkg => pkg.cmd = CommandKind.shutdown) = [] := by
      apply filter_none_of_forall
      intro pkg hpkg
      rcases List.mem_map.mp hpkg with ⟨c, hc, hceq⟩
      have := hnos c (List.mem_of_mem_filter hc)
      simp only [decide_eq_false_iff_not]
      rw [← hceq]
      exact this
    rw [hA]
    simp
  · intro jobDur avail s
    unfold execStep
    by_cases hc : s.done = true ∧ s.jobs = []
    · rw [if_pos hc]
      simp [hc]
    · rw [if_neg hc]
      simp [hc]
  · intro jobDur avail s s' h
    unfold execStep at h
    by_cases hc : s.done = true ∧ s.jobs = []
    · rw [if_pos hc] at h
      cases h
    · rw [if_neg hc] at h
      injection h with h
      match hinb : s.inbox, havail : avail with
      | [], true =>
        rw [hinb] at h
        replace h : ({ done := s.done, jobs := updateJobs s.jobs, inbox := ([] : List CommandPkg) } : ExecState) = s' := h
        rw [← h]
        constructor
        · intro hd
          exact Or.inl hd
        · rintro (hd | ⟨-, pkg, rest, hr, -⟩)
          · exact hd
          · cases hr
      | [], false =>
        rw [hinb] at h
        replace h : ({ done := s.done, jobs := updateJobs s.jobs, inbox := ([] : List CommandPkg) } : ExecState) = s' := h
        rw [← h]
        constructor
        · intro hd
          exact Or.inl hd
        · rintro (hd | ⟨hav, -⟩)
          · exact hd
          · cases hav
      | pkg :: rest, false =>
        rw [hinb] at h
        replace h : ({ done := s.done, jobs := updateJobs s.jobs, inbox := pkg :: rest } : ExecState) = s' := h
        rw [← h]
        constructor
        · intro hd
          exact Or.inl hd
        · rintro (hd | ⟨hav, -⟩)
          · exact hd
          · cases hav
      | pkg :: rest, true =>
        rw [hinb] at h
        replace h : (if pkg.cmd = CommandKind.shutdown then ({ done := true, jobs := updateJobs s.jobs, inbox := rest } : ExecState) else { done := s.done, jobs := updateJobs s.jobs ++ [jobDur pkg], inbox := rest }) = s' := h
        by_cases hsd : pkg.cmd = CommandKind.shutdown
        · rw [if_pos hsd] at h
          rw [← h]
          exact ⟨fun _ => Or.inr ⟨rfl, pkg, rest, rfl, hsd⟩, fun _ => rfl⟩
        · rw [if_neg hsd] at h
          rw [← h]
          constructor
          · intro hd
            exact Or.inl hd
          · rintro (hd | ⟨-, pkg2, rest2, hr, hsd2⟩)
            · exact hd
            · injection hr with hr1 hr2
              rw [← hr1] at hsd2
              exact absurd hsd2 hsd

/-- C7 witness: one compute command on node 1, two nodes; worker 1 receives
exactly one SHUTDOWN, the master queue holds exactly one, and the
executor-exit characterization applied at the state
`{done := true, jobs := []}`. -/
theorem shutdown_once_and_executor_drains_witness :
    ((workerInbox [{ tid := 0, cid := 0, cmd := CommandKind.compute, nid := 1 }] 2 1 1).filter
      (fun pkg => pkg.cmd = CommandKind.shutdown)).length = 1 ∧
    (execStep (fun _ => 1) true { done := true, jobs := [], inbox := [] } = none ↔
      ((true : Bool) = true ∧ ([] : List Nat) = [])) :=
  ⟨(shutdown_once_and_executor_drains
      [{ tid := 0, cid := 0, cmd := CommandKind.compute, nid := 1 }] 2 1
      (by decide)).1 1 (by decide) (by decide),
    (shutdown_once_and_executor_drains
      [{ tid := 0, cid := 0, cmd := CommandKind.compute, nid := 1 }] 2 1
      (by decide)).2.2.1 (fun _ => 1) true { done := true, jobs := [], inbox := [] }⟩

/-! ## A compute task without buffer accesses (C6)

With an empty range-mapper list the loop at runtime.cc 288-315 never runs, so
`chunk_requirements` has no entry for any chunk; `assign_chunks_to_nodes`
then calls `chunk_reqs.at(i)` on the first chunk, which throws
`std::out_of_range`. -/

/-- `free_nodes` construction (runtime.cc 317-321): nodes `0 ..
num_worker_nodes`, skipping 0 unless `master_only`. -/
def freeNodes (nwn : Nat) (master_only : Bool) : List Nat :=
  (List.range (nwn + 1)).filter (fun i => master_only ∨ ¬ i = 0)

/-- The chunking-and-assignment fragment of `process_compute_task` for a
compute task whose range-mapper list is empty (runtime.cc 279-323): the
chunk-requirement map has no entries (`fun _ => none`). -/
def processComputeTaskNoAccesses (num_nodes : Nat) :
    Except GenError (List (Nat × Nat) × List ((Nat × Nat) × List (List Nat))) :=
  assign_chunks_to_nodes (num_worker_nodes num_nodes) (fun _ => none)
    (freeNodes (num_worker_nodes num_nodes) (num_nodes = 1))

/-- C6 refuted (code bug): for a compute task with no buffer accesses the
command-graph generation does not succeed — `chunk_reqs.at(0)` throws
`std::out_of_range` (for every `num_nodes`; in particular at the failing
input `num_nodes = 2`). -/
theorem no_access_task_assignment_raises :
    processComputeTaskNoAccesses 2 = Except.error GenError.out_of_range ∧
    (∀ num_nodes : Nat, processComputeTaskNoAccesses num_nodes =
      Except.error GenError.out_of_range) := by
  constructor
  · rfl
  · intro num_nodes
    have h1 : ∃ r, num_worker_nodes num_nodes = r + 1 := by
      refine ⟨num_worker_nodes num_nodes - 1, ?_⟩
      have : 1 ≤ num_worker_nodes num_nodes := le_max_right _ _
      omega
    obtain ⟨r, hr⟩ := h1
    unfold processComputeTaskNoAccesses assign_chunks_to_nodes
    rw [hr]
    rfl

end Celerity
